import Mathlib

/-!
Verification of the point-cloud completion core of the 3D-LiDAR-Scanner
repository.

The repository defines two PyTorch completion networks:
* `SimplePCN` (convert_pcn_to_coreml.py): a per-point MLP encoder
  (Linear/BatchNorm1d/ReLU stacks applied to the flattened point batch),
  channel-wise max pooling over the point dimension, and an MLP decoder.
* `PointCloudCompletionNet` (create_pcn_model.py): a kernel-size-1 Conv1d
  encoder in channels-first layout, max pooling over the spatial (point)
  dimension, and an MLP decoder.

Both are embedded here over `ℝ` (exact-arithmetic semantics of the float
code).  All values are lists of reals; matrices are lists of rows.  The
models run in inference mode (`model.eval()` is called by both scripts
before any use), so every `BatchNorm1d` is embedded with its eval-mode
semantics: a per-channel affine re-parameterization using the stored
running statistics, never batch statistics.  PyTorch runtime shape
failures (`Tensor.view` element-count mismatches, reductions over an
empty dimension, convolution channel mismatches) are embedded as the
single structural error kind `ShapeError`.
-/

noncomputable section

/-- The single structural error kind of the completion core: every
tensor-shape violation surfaces as this error. -/
inductive ShapeError
  | shapeError
deriving DecidableEq

/-- Dot product of two real lists (truncating at the shorter one, as the
underlying loops never read past either operand). -/
def dot : List ℝ → List ℝ → ℝ
  | a :: as, c :: cs => a * c + dot as cs
  | _, _ => 0

/-- One affine layer applied to one vector: row i of the result is
`dot W_i x + b_i` (PyTorch `nn.Linear`: `y = W x + b`, weight stored as
an out_dim × in_dim matrix). -/
def linear : List (List ℝ) → List ℝ → List ℝ → List ℝ
  | w :: ws, bi :: bs, x => (dot w x + bi) :: linear ws bs x
  | _, _, _ => []

/-- Default numerical-stability constant of `nn.BatchNorm1d` (eps=1e-5);
neither script overrides it. -/
def bnEps : ℝ := 1 / 100000

/-- Eval-mode batch-norm transform of a single scalar channel value, with
explicit stability constant: `(t - mean) / sqrt(var + eps) * weight + bias`
(the documented inference formula of `nn.BatchNorm1d`). -/
def normScalarE (g bi mu v eps t : ℝ) : ℝ :=
  (t - mu) / Real.sqrt (v + eps) * g + bi

/-- Eval-mode batch-norm scalar transform at the default eps. -/
def normScalar (g bi mu v t : ℝ) : ℝ :=
  normScalarE g bi mu v bnEps t

/-- Modelled from the spec: the normalization formula exactly as section
4.1 of the spec writes it,
`z = scale * (y - mean) / sqrt(var + eps) + shift`, to be compared
against the source-translated `normScalarE`. -/
def specNormalize (scale shift mean vr eps y : ℝ) : ℝ :=
  scale * (y - mean) / Real.sqrt (vr + eps) + shift

/-- Eval-mode `nn.BatchNorm1d` on one feature vector (one row of a
(batch, channels) tensor), with explicit eps: channel c of the result is
`normScalarE weight_c bias_c mean_c var_c eps y_c`. -/
def bnRowE : List ℝ → List ℝ → List ℝ → List ℝ → ℝ → List ℝ → List ℝ
  | g :: gs, bi :: bs, mu :: ms, v :: vs, eps, t :: ts =>
      normScalarE g bi mu v eps t :: bnRowE gs bs ms vs eps ts
  | _, _, _, _, _, _ => []

/-- Eval-mode `nn.BatchNorm1d` on one feature vector at the default eps. -/
def bnRow (g bi mu v : List ℝ) (y : List ℝ) : List ℝ :=
  bnRowE g bi mu v bnEps y

/-- `nn.ReLU` on one vector: element-wise `max 0`. -/
def reluRow (y : List ℝ) : List ℝ :=
  y.map (fun t => max t 0)

/-- `nn.Linear` on a (batch, in_dim) tensor: applied independently to
every row. -/
def linearBatch (w : List (List ℝ)) (b : List ℝ) (rows : List (List ℝ)) :
    List (List ℝ) :=
  rows.map (linear w b)

/-- Eval-mode `nn.BatchNorm1d` on a (batch, channels) tensor: with stored
running statistics the transform is applied independently to every row
(no dependence on the batch). -/
def batchNorm1d (g bi mu v : List ℝ) (rows : List (List ℝ)) :
    List (List ℝ) :=
  rows.map (bnRow g bi mu v)

/-- `nn.ReLU` on a (batch, channels) tensor. -/
def reluBatch (rows : List (List ℝ)) : List (List ℝ) :=
  rows.map reluRow

/-- Maximum of a list of reals, as the linear reduction performed by a
`torch.max` reduction over a non-empty dimension (`listMax [] = 0` is a
junk value: the runtime raises instead, which the forward passes below
model by an explicit emptiness check). -/
def listMax : List ℝ → ℝ
  | [] => 0
  | [t] => t
  | t :: s :: ts => max t (listMax (s :: ts))

/-- Channel-wise maximum over the rows of a (points, channels) matrix:
`torch.max(features, dim=1)[0]` as a linear reduction with binary
element-wise `max`. -/
def colMax : List (List ℝ) → List ℝ
  | [] => []
  | [r] => r
  | r :: s :: rs => List.zipWith max r (colMax (s :: rs))

/-- Row-major regrouping of a flat buffer into rows of `k` consecutive
entries: the data layout produced by `Tensor.view(..., k)` on a
contiguous tensor. -/
def toRows (k : ℕ) (l : List ℝ) : List (List ℝ) :=
  if h : k = 0 ∨ l = [] then []
  else l.take k :: toRows k (l.drop k)
termination_by l.length
decreasing_by
  simp only [not_or] at h
  have h1 : 0 < k := Nat.pos_of_ne_zero h.1
  have h2 : 0 < l.length := List.length_pos.mpr h.2
  simp only [List.length_drop]
  omega

/-- Total element count of a (rows, cols) tensor represented as a list of
rows; `Tensor.view` succeeds exactly when this count matches the target
shape. -/
def numel (rows : List (List ℝ)) : ℕ :=
  (rows.map List.length).sum

/-- Transpose of a (rows, numCols) tensor into a (numCols, rows) tensor:
`Tensor.transpose(1, 2)` on a (1, N, d) tensor (batch dimension elided,
rectangular data assumed, as produced by the traced tensor interface). -/
def tensorTranspose (numCols : ℕ) (rows : List (List ℝ)) :
    List (List ℝ) :=
  (List.range numCols).map (fun c => rows.map (fun r => r.getD c 0))

/-- Kernel-size-1 `nn.Conv1d` on a (in_channels, N) channels-first
tensor: output channel i at spatial position j is
`dot W_i (column j) + b_i` — the same affine map applied with shared
weights at every spatial position. -/
def conv1dK1 : List (List ℝ) → List ℝ → List (List ℝ) → List (List ℝ)
  | w :: ws, bi :: bs, x =>
      ((List.range (x.headD []).length).map
        (fun j => dot w (x.map (fun r => r.getD j 0)) + bi)) ::
        conv1dK1 ws bs x
  | _, _, _ => []

/-- Eval-mode `nn.BatchNorm1d` on a (channels, N) channels-first tensor:
channel row c is transformed element-wise with channel c's stored
statistics. -/
def batchNormCF : List ℝ → List ℝ → List ℝ → List ℝ → List (List ℝ) →
    List (List ℝ)
  | g :: gs, bi :: bs, mu :: ms, v :: vs, row :: rows =>
      row.map (fun t => normScalar g bi mu v t) ::
        batchNormCF gs bs ms vs rows
  | _, _, _, _, _ => []

/-- `nn.ReLU` on a channels-first tensor. -/
def reluCF (rows : List (List ℝ)) : List (List ℝ) :=
  rows.map reluRow

/-- The `SimplePCN` model of convert_pcn_to_coreml.py: six `nn.Linear`
layers (weight matrix and bias each) and five eval-mode `nn.BatchNorm1d`
layers (weight, bias, running_mean, running_var each), plus the three
size constants of the constructor. -/
structure SimplePCN where
  input_points : ℕ
  output_points : ℕ
  feature_dim : ℕ
  w1 : List (List ℝ)
  b1 : List ℝ
  bn1_weight : List ℝ
  bn1_bias : List ℝ
  bn1_mean : List ℝ
  bn1_var : List ℝ
  w2 : List (List ℝ)
  b2 : List ℝ
  bn2_weight : List ℝ
  bn2_bias : List ℝ
  bn2_mean : List ℝ
  bn2_var : List ℝ
  w3 : List (List ℝ)
  b3 : List ℝ
  bn3_weight : List ℝ
  bn3_bias : List ℝ
  bn3_mean : List ℝ
  bn3_var : List ℝ
  w4 : List (List ℝ)
  b4 : List ℝ
  bn4_weight : List ℝ
  bn4_bias : List ℝ
  bn4_mean : List ℝ
  bn4_var : List ℝ
  w5 : List (List ℝ)
  b5 : List ℝ
  bn5_weight : List ℝ
  bn5_bias : List ℝ
  bn5_mean : List ℝ
  bn5_var : List ℝ
  w6 : List (List ℝ)
  b6 : List ℝ

/-- The encoder `nn.Sequential` of SimplePCN on a (batch*points, 3)
tensor: Linear(3,128), BatchNorm1d(128), ReLU, Linear(128,256),
BatchNorm1d(256), ReLU, Linear(256,feature_dim),
BatchNorm1d(feature_dim), ReLU. -/
def SimplePCN.encoder (m : SimplePCN) (x : List (List ℝ)) :
    List (List ℝ) :=
  reluBatch (batchNorm1d m.bn3_weight m.bn3_bias m.bn3_mean m.bn3_var
    (linearBatch m.w3 m.b3
      (reluBatch (batchNorm1d m.bn2_weight m.bn2_bias m.bn2_mean m.bn2_var
        (linearBatch m.w2 m.b2
          (reluBatch (batchNorm1d m.bn1_weight m.bn1_bias m.bn1_mean
            m.bn1_var (linearBatch m.w1 m.b1 x))))))))

/-- The decoder `nn.Sequential` of SimplePCN on a (batch, feature_dim)
tensor: Linear(feature_dim,1024), BatchNorm1d(1024), ReLU,
Linear(1024,2048), BatchNorm1d(2048), ReLU,
Linear(2048, output_points*3) — the final layer is affine only. -/
def SimplePCN.decoder (m : SimplePCN) (x : List (List ℝ)) :
    List (List ℝ) :=
  linearBatch m.w6 m.b6
    (reluBatch (batchNorm1d m.bn5_weight m.bn5_bias m.bn5_mean m.bn5_var
      (linearBatch m.w5 m.b5
        (reluBatch (batchNorm1d m.bn4_weight m.bn4_bias m.bn4_mean
          m.bn4_var (linearBatch m.w4 m.b4 x))))))

/-- The SimplePCN encoder restricted to a single point (the encoder is a
per-row map, so this is its action on one row). -/
def SimplePCN.encoderRow (m : SimplePCN) (p : List ℝ) : List ℝ :=
  reluRow (bnRow m.bn3_weight m.bn3_bias m.bn3_mean m.bn3_var
    (linear m.w3 m.b3
      (reluRow (bnRow m.bn2_weight m.bn2_bias m.bn2_mean m.bn2_var
        (linear m.w2 m.b2
          (reluRow (bnRow m.bn1_weight m.bn1_bias m.bn1_mean m.bn1_var
            (linear m.w1 m.b1 p))))))))

/-- The SimplePCN decoder restricted to a single global feature vector
(batch size 1). -/
def SimplePCN.decoderRow (m : SimplePCN) (x : List ℝ) : List ℝ :=
  linear m.w6 m.b6
    (reluRow (bnRow m.bn5_weight m.bn5_bias m.bn5_mean m.bn5_var
      (linear m.w5 m.b5
        (reluRow (bnRow m.bn4_weight m.bn4_bias m.bn4_mean m.bn4_var
          (linear m.w4 m.b4 x))))))

/-- The aggregated global descriptor of SimplePCN on a partial cloud:
channel-wise maximum of the per-point features. -/
def SimplePCN.globalFeature (m : SimplePCN) (cloud : List (List ℝ)) :
    List ℝ :=
  colMax (cloud.map m.encoderRow)

/-- SimplePCN.forward (convert_pcn_to_coreml.py lines 83-114), batch size
1 (both scripts trace with shape (1, N, 3)).  The tensor reshapes are
embedded with `Tensor.view` semantics: `view(-1, 3)` requires the element
count to be divisible by 3, `view(batch, num_points, feature_dim)`
requires the element counts to match, `torch.max(features, dim=1)` fails
on an empty reduction dimension, and `view(batch, output_points, 3)`
requires the element counts to match.  Every such runtime failure is the
structural error `ShapeError`. -/
def SimplePCN.forward (m : SimplePCN) (cloud : List (List ℝ)) :
    Except ShapeError (List (List ℝ)) :=
  let numPoints := cloud.length
  if 3 ∣ numel cloud then
    let x := toRows 3 cloud.flatten
    let features := m.encoder x
    if numel features = numPoints * m.feature_dim then
      if numPoints = 0 then .error .shapeError
      else
        let glob := colMax (toRows m.feature_dim features.flatten)
        let completed := m.decoder [glob]
        if numel completed = m.output_points * 3 then
          .ok (toRows 3 completed.flatten)
        else .error .shapeError
    else .error .shapeError
  else .error .shapeError

/-- Shape well-formedness of a SimplePCN parameter bundle, as constructed
by `SimplePCN.__init__` with input_points=1024, output_points, and
feature_dim: every layer's parameter dimensions are exactly those the
constructor declares. -/
structure SimplePCN.Valid (m : SimplePCN) : Prop where
  hfd : 0 < m.feature_dim
  hw1 : m.w1.length = 128
  hw1r : ∀ r ∈ m.w1, r.length = 3
  hb1 : m.b1.length = 128
  hg1 : m.bn1_weight.length = 128
  hs1 : m.bn1_bias.length = 128
  hm1 : m.bn1_mean.length = 128
  hv1 : m.bn1_var.length = 128
  hw2 : m.w2.length = 256
  hw2r : ∀ r ∈ m.w2, r.length = 128
  hb2 : m.b2.length = 256
  hg2 : m.bn2_weight.length = 256
  hs2 : m.bn2_bias.length = 256
  hm2 : m.bn2_mean.length = 256
  hv2 : m.bn2_var.length = 256
  hw3 : m.w3.length = m.feature_dim
  hw3r : ∀ r ∈ m.w3, r.length = 256
  hb3 : m.b3.length = m.feature_dim
  hg3 : m.bn3_weight.length = m.feature_dim
  hs3 : m.bn3_bias.length = m.feature_dim
  hm3 : m.bn3_mean.length = m.feature_dim
  hv3 : m.bn3_var.length = m.feature_dim
  hw4 : m.w4.length = 1024
  hw4r : ∀ r ∈ m.w4, r.length = m.feature_dim
  hb4 : m.b4.length = 1024
  hg4 : m.bn4_weight.length = 1024
  hs4 : m.bn4_bias.length = 1024
  hm4 : m.bn4_mean.length = 1024
  hv4 : m.bn4_var.length = 1024
  hw5 : m.w5.length = 2048
  hw5r : ∀ r ∈ m.w5, r.length = 1024
  hb5 : m.b5.length = 2048
  hg5 : m.bn5_weight.length = 2048
  hs5 : m.bn5_bias.length = 2048
  hm5 : m.bn5_mean.length = 2048
  hv5 : m.bn5_var.length = 2048
  hw6 : m.w6.length = m.output_points * 3
  hw6r : ∀ r ∈ m.w6, r.length = 2048
  hb6 : m.b6.length = m.output_points * 3

/-- The `PointCloudEncoder` of create_pcn_model.py: three kernel-size-1
Conv1d layers and three eval-mode BatchNorm1d layers (the kernel
dimension of each Conv1d weight, of extent 1, is elided). -/
structure PointCloudEncoder where
  input_dim : ℕ
  feature_dim : ℕ
  conv1_w : List (List ℝ)
  conv1_b : List ℝ
  conv2_w : List (List ℝ)
  conv2_b : List ℝ
  conv3_w : List (List ℝ)
  conv3_b : List ℝ
  bn1_weight : List ℝ
  bn1_bias : List ℝ
  bn1_mean : List ℝ
  bn1_var : List ℝ
  bn2_weight : List ℝ
  bn2_bias : List ℝ
  bn2_mean : List ℝ
  bn2_var : List ℝ
  bn3_weight : List ℝ
  bn3_bias : List ℝ
  bn3_mean : List ℝ
  bn3_var : List ℝ

/-- The pre-pooling feature map of PointCloudEncoder.forward on a
channels-first (3, N) tensor: relu(bn1(conv1)), relu(bn2(conv2)),
relu(bn3(conv3)). -/
def PointCloudEncoder.features (e : PointCloudEncoder)
    (x : List (List ℝ)) : List (List ℝ) :=
  reluCF (batchNormCF e.bn3_weight e.bn3_bias e.bn3_mean e.bn3_var
    (conv1dK1 e.conv3_w e.conv3_b
      (reluCF (batchNormCF e.bn2_weight e.bn2_bias e.bn2_mean e.bn2_var
        (conv1dK1 e.conv2_w e.conv2_b
          (reluCF (batchNormCF e.bn1_weight e.bn1_bias e.bn1_mean
            e.bn1_var (conv1dK1 e.conv1_w e.conv1_b x))))))))

/-- PointCloudEncoder.forward: the feature map followed by
`torch.max(x, dim=2, keepdim=True)[0]`; the keepdim singleton dimension
and the decoder's `squeeze(-1)` cancel, so the result is the per-channel
maximum vector. -/
def PointCloudEncoder.forward (e : PointCloudEncoder)
    (x : List (List ℝ)) : List ℝ :=
  (e.features x).map listMax

/-- The shared per-point transform the Conv1d encoder applies at every
spatial position: the same affine/normalize/relu stack on a single
3-vector. -/
def PointCloudEncoder.pointFeature (e : PointCloudEncoder) (p : List ℝ) :
    List ℝ :=
  reluRow (bnRow e.bn3_weight e.bn3_bias e.bn3_mean e.bn3_var
    (linear e.conv3_w e.conv3_b
      (reluRow (bnRow e.bn2_weight e.bn2_bias e.bn2_mean e.bn2_var
        (linear e.conv2_w e.conv2_b
          (reluRow (bnRow e.bn1_weight e.bn1_bias e.bn1_mean e.bn1_var
            (linear e.conv1_w e.conv1_b p))))))))

/-- Shape well-formedness of a PointCloudEncoder as constructed with
input_dim=3 and a positive feature_dim. -/
structure PointCloudEncoder.Valid (e : PointCloudEncoder) : Prop where
  hfd : 0 < e.feature_dim
  hw1 : e.conv1_w.length = 64
  hw1r : ∀ r ∈ e.conv1_w, r.length = 3
  hb1 : e.conv1_b.length = 64
  hg1 : e.bn1_weight.length = 64
  hs1 : e.bn1_bias.length = 64
  hm1 : e.bn1_mean.length = 64
  hv1 : e.bn1_var.length = 64
  hw2 : e.conv2_w.length = 128
  hw2r : ∀ r ∈ e.conv2_w, r.length = 64
  hb2 : e.conv2_b.length = 128
  hg2 : e.bn2_weight.length = 128
  hs2 : e.bn2_bias.length = 128
  hm2 : e.bn2_mean.length = 128
  hv2 : e.bn2_var.length = 128
  hw3 : e.conv3_w.length = e.feature_dim
  hw3r : ∀ r ∈ e.conv3_w, r.length = 128
  hb3 : e.conv3_b.length = e.feature_dim
  hg3 : e.bn3_weight.length = e.feature_dim
  hs3 : e.bn3_bias.length = e.feature_dim
  hm3 : e.bn3_mean.length = e.feature_dim
  hv3 : e.bn3_var.length = e.feature_dim

/-- The `PointCloudDecoder` of create_pcn_model.py: three `nn.Linear`
layers and two eval-mode BatchNorm1d layers. -/
structure PointCloudDecoder where
  feature_dim : ℕ
  output_points : ℕ
  fc1_w : List (List ℝ)
  fc1_b : List ℝ
  fc2_w : List (List ℝ)
  fc2_b : List ℝ
  fc3_w : List (List ℝ)
  fc3_b : List ℝ
  bn1_weight : List ℝ
  bn1_bias : List ℝ
  bn1_mean : List ℝ
  bn1_var : List ℝ
  bn2_weight : List ℝ
  bn2_bias : List ℝ
  bn2_mean : List ℝ
  bn2_var : List ℝ

/-- The flat coordinate buffer computed by PointCloudDecoder.forward
before its reshape: relu(bn1(fc1)), relu(bn2(fc2)), fc3 — the final
layer is affine only. -/
def PointCloudDecoder.flat (d : PointCloudDecoder) (x : List ℝ) :
    List ℝ :=
  linear d.fc3_w d.fc3_b
    (reluRow (bnRow d.bn2_weight d.bn2_bias d.bn2_mean d.bn2_var
      (linear d.fc2_w d.fc2_b
        (reluRow (bnRow d.bn1_weight d.bn1_bias d.bn1_mean d.bn1_var
          (linear d.fc1_w d.fc1_b x))))))

/-- PointCloudDecoder.forward on the squeezed (batch = 1) global feature
vector: the flat buffer reshaped by `view(-1, output_points, 3)`, which
requires the element counts to match. -/
def PointCloudDecoder.forward (d : PointCloudDecoder) (x : List ℝ) :
    Except ShapeError (List (List ℝ)) :=
  let flat := d.flat x
  if flat.length = d.output_points * 3 then .ok (toRows 3 flat)
  else .error .shapeError

/-- Shape well-formedness of a PointCloudDecoder as constructed. -/
structure PointCloudDecoder.Valid (d : PointCloudDecoder) : Prop where
  hw1 : d.fc1_w.length = 2048
  hw1r : ∀ r ∈ d.fc1_w, r.length = d.feature_dim
  hb1 : d.fc1_b.length = 2048
  hg1 : d.bn1_weight.length = 2048
  hs1 : d.bn1_bias.length = 2048
  hm1 : d.bn1_mean.length = 2048
  hv1 : d.bn1_var.length = 2048
  hw2 : d.fc2_w.length = 4096
  hw2r : ∀ r ∈ d.fc2_w, r.length = 2048
  hb2 : d.fc2_b.length = 4096
  hg2 : d.bn2_weight.length = 4096
  hs2 : d.bn2_bias.length = 4096
  hm2 : d.bn2_mean.length = 4096
  hv2 : d.bn2_var.length = 4096
  hw3 : d.fc3_w.length = d.output_points * 3
  hw3r : ∀ r ∈ d.fc3_w, r.length = 4096
  hb3 : d.fc3_b.length = d.output_points * 3

/-- The `PointCloudCompletionNet` of create_pcn_model.py. -/
structure PointCloudCompletionNet where
  input_points : ℕ
  output_points : ℕ
  encoder : PointCloudEncoder
  decoder : PointCloudDecoder

/-- PointCloudCompletionNet.forward (create_pcn_model.py lines 80-91),
batch size 1: transpose (1, N, d) to (1, d, N), encode, pool, decode.
`nn.Conv1d(3, 64, 1)` fails unless the input has exactly 3 channels, and
`torch.max(x, dim=2)` fails on an empty reduction dimension; both
runtime failures are the structural error `ShapeError`.  The point width
d is read off the first row (the traced tensor interface is rectangular
with batch 1). -/
def PointCloudCompletionNet.forward (m : PointCloudCompletionNet)
    (cloud : List (List ℝ)) : Except ShapeError (List (List ℝ)) :=
  let d := (cloud.headD []).length
  let x := tensorTranspose d cloud
  if d = 3 then
    if cloud.length = 0 then .error .shapeError
    else m.decoder.forward (m.encoder.forward x)
  else .error .shapeError

/-- The aggregated global descriptor of PointCloudCompletionNet on a
partial cloud: per-channel maximum of the shared per-point features. -/
def PointCloudCompletionNet.globalFeature (m : PointCloudCompletionNet)
    (cloud : List (List ℝ)) : List ℝ :=
  (tensorTranspose m.encoder.feature_dim
    (cloud.map m.encoder.pointFeature)).map listMax

/-- Shape well-formedness of a PointCloudCompletionNet as constructed:
both halves well-formed and their shared dimensions consistent. -/
structure PointCloudCompletionNet.Valid (m : PointCloudCompletionNet) :
    Prop where
  henc : m.encoder.Valid
  hdec : m.decoder.Valid
  hfd : m.decoder.feature_dim = m.encoder.feature_dim
  hoc : m.decoder.output_points = m.output_points

/-- A single pipeline layer as the spec's tagged-variant list describes
it: an affine transform, an inference-mode normalization with stored
constants, or the clamp-at-zero nonlinearity. -/
inductive Layer
  | affine (w : List (List ℝ)) (b : List ℝ)
  | normalize (scale shift mean variance : List ℝ) (eps : ℝ)
  | relu

/-- Run one layer on one vector. -/
def Layer.run : Layer → List ℝ → List ℝ
  | .affine w b, x => linear w b x
  | .normalize g s mu v eps, x => bnRowE g s mu v eps x
  | .relu, x => reluRow x

/-- Run an ordered layer list on one vector. -/
def runLayers (ls : List Layer) (x : List ℝ) : List ℝ :=
  ls.foldl (fun y l => l.run y) x

/-- Declared-dimension check of one layer against the incoming dimension:
returns the outgoing dimension when the layer's stored parameter
dimensions are consistent with `d`, and nothing otherwise. -/
def Layer.checkFrom (d : ℕ) : Layer → Option ℕ
  | .affine w b =>
      if w.length = b.length ∧ ∀ r ∈ w, r.length = d then some w.length
      else none
  | .normalize g s mu v _ =>
      if g.length = d ∧ s.length = d ∧ mu.length = d ∧ v.length = d then
        some d
      else none
  | .relu => some d

/-- Chained-dimension validation of a layer list starting from dimension
`d`: the outgoing dimension if every layer's declared input dimension
equals the previous layer's output dimension, and nothing otherwise. -/
def chainDims (d : ℕ) : List Layer → Option ℕ
  | [] => some d
  | l :: ls =>
      match l.checkFrom d with
      | none => none
      | some e => chainDims e ls

/-- A validated Model as the spec's data model describes it: an ordered
list of encoder layers, an ordered list of decoder layers, and the three
size constants. -/
structure SpecModel where
  encLayers : List Layer
  decLayers : List Layer
  inputCount : ℕ
  outputCount : ℕ
  featureDim : ℕ

/-- Modelled from the spec: `loadModel`, the Model constructor of the
core's external interface, lives in the repository's on-device Swift
layer (PointCloudCompletion.swift / CoreMLPointCloudCompletion.swift,
referenced by both scripts but not under src/).  Per spec sections 3, 6
and 7 it validates all LayerParameters' chained dimensions once at
construction — encoder chaining from point dimension 3 up to FEATURE_DIM,
decoder chaining from FEATURE_DIM to OUTPUT_COUNT × 3 — and fails with
ShapeError on any mismatch. -/
def loadModel (enc dec : List Layer) (ic oc fd : ℕ) :
    Except ShapeError SpecModel :=
  match chainDims 3 enc with
  | none => .error .shapeError
  | some f =>
      if f = fd then
        match chainDims fd dec with
        | none => .error .shapeError
        | some o =>
            if o = oc * 3 then .ok ⟨enc, dec, ic, oc, fd⟩
            else .error .shapeError
      else .error .shapeError

/-- Modelled from the spec: `complete` on a validated Model (spec section
4.4) — validate the partial cloud's point dimension and non-emptiness,
run the per-point encoder stack, aggregate by element-wise maximum,
run the decoder stack, and reshape row-major into the completed cloud. -/
def SpecModel.complete (m : SpecModel) (cloud : List (List ℝ)) :
    Except ShapeError (List (List ℝ)) :=
  match cloud with
  | [] => .error .shapeError
  | p :: ps =>
      if ∀ q ∈ p :: ps, q.length = 3 then
        .ok (toRows 3 (runLayers m.decLayers
          (colMax ((p :: ps).map (runLayers m.encLayers)))))
      else .error .shapeError

/-- The pseudo-random initialization scheme a parameter tensor is drawn
from.  `kaimingUniform` and `fanInUniform` are the documented defaults of
`nn.Linear.reset_parameters` / `nn.Conv1d.reset_parameters` (weight:
Kaiming-uniform with a=sqrt 5; bias: uniform on ±1/sqrt fan_in);
`xavierUniform` is `nn.init.xavier_uniform_`; `zeroInit` is
`nn.init.zeros_`. -/
inductive InitScheme
  | kaimingUniform
  | fanInUniform
  | xavierUniform
  | zeroInit
deriving DecidableEq

/-- Initialization of one affine (Linear or Conv1d) layer: the scheme of
its weight matrix and of its bias vector. -/
structure AffineInit where
  weightInit : InitScheme
  biasInit : InitScheme
deriving DecidableEq

/-- What constructing an `nn.Linear` or `nn.Conv1d` leaves in place when
no further initializer is applied. -/
def torchAffineDefault : AffineInit :=
  ⟨.kaimingUniform, .fanInUniform⟩

/-- `init_weights` of create_pcn_model.py lines 106-110, on an affine
module: overwrite the weight with Xavier-uniform and the bias (present on
every affine layer of both models) with zeros. -/
def initWeightsAffine (_ : AffineInit) : AffineInit :=
  ⟨.xavierUniform, .zeroInit⟩

/-- The six affine layers of the SimplePCN model returned by
`create_model` (convert_pcn_to_coreml.py lines 117-138): the constructor
builds six `nn.Linear` layers and `create_model` applies no initializer
afterwards (it only calls `model.eval()`), so every layer keeps the
PyTorch default initialization. -/
def simplePCNAffineInits : List AffineInit :=
  List.replicate 6 torchAffineDefault

/-- The six affine layers (three Conv1d, three Linear) of the
PointCloudCompletionNet built by create_pcn_model.py lines 102-112: the
script calls `model.apply(init_weights)`, which rewrites every affine
layer's initialization. -/
def pccnAffineInits : List AffineInit :=
  (List.replicate 6 torchAffineDefault).map initWeightsAffine

/-- A concrete well-formed SimplePCN parameter bundle (all-zero weights,
unit batch-norm scales) at the configuration `create_model` uses. -/
def zeroSimple : SimplePCN where
  input_points := 1024
  output_points := 2048
  feature_dim := 512
  w1 := List.replicate 128 (List.replicate 3 0)
  b1 := List.replicate 128 0
  bn1_weight := List.replicate 128 1
  bn1_bias := List.replicate 128 0
  bn1_mean := List.replicate 128 0
  bn1_var := List.replicate 128 1
  w2 := List.replicate 256 (List.replicate 128 0)
  b2 := List.replicate 256 0
  bn2_weight := List.replicate 256 1
  bn2_bias := List.replicate 256 0
  bn2_mean := List.replicate 256 0
  bn2_var := List.replicate 256 1
  w3 := List.replicate 512 (List.replicate 256 0)
  b3 := List.replicate 512 0
  bn3_weight := List.replicate 512 1
  bn3_bias := List.replicate 512 0
  bn3_mean := List.replicate 512 0
  bn3_var := List.replicate 512 1
  w4 := List.replicate 1024 (List.replicate 512 0)
  b4 := List.replicate 1024 0
  bn4_weight := List.replicate 1024 1
  bn4_bias := List.replicate 1024 0
  bn4_mean := List.replicate 1024 0
  bn4_var := List.replicate 1024 1
  w5 := List.replicate 2048 (List.replicate 1024 0)
  b5 := List.replicate 2048 0
  bn5_weight := List.replicate 2048 1
  bn5_bias := List.replicate 2048 0
  bn5_mean := List.replicate 2048 0
  bn5_var := List.replicate 2048 1
  w6 := List.replicate 6144 (List.replicate 2048 0)
  b6 := List.replicate 6144 0

/-- A concrete well-formed PointCloudEncoder (all-zero weights). -/
def zeroEncoder : PointCloudEncoder where
  input_dim := 3
  feature_dim := 1024
  conv1_w := List.replicate 64 (List.replicate 3 0)
  conv1_b := List.replicate 64 0
  conv2_w := List.replicate 128 (List.replicate 64 0)
  conv2_b := List.replicate 128 0
  conv3_w := List.replicate 1024 (List.replicate 128 0)
  conv3_b := List.replicate 1024 0
  bn1_weight := List.replicate 64 1
  bn1_bias := List.replicate 64 0
  bn1_mean := List.replicate 64 0
  bn1_var := List.replicate 64 1
  bn2_weight := List.replicate 128 1
  bn2_bias := List.replicate 128 0
  bn2_mean := List.replicate 128 0
  bn2_var := List.replicate 128 1
  bn3_weight := List.replicate 1024 1
  bn3_bias := List.replicate 1024 0
  bn3_mean := List.replicate 1024 0
  bn3_var := List.replicate 1024 1

/-- A concrete well-formed PointCloudDecoder (all-zero weights). -/
def zeroDecoder : PointCloudDecoder where
  feature_dim := 1024
  output_points := 2048
  fc1_w := List.replicate 2048 (List.replicate 1024 0)
  fc1_b := List.replicate 2048 0
  fc2_w := List.replicate 4096 (List.replicate 2048 0)
  fc2_b := List.replicate 4096 0
  fc3_w := List.replicate 6144 (List.replicate 4096 0)
  fc3_b := List.replicate 6144 0
  bn1_weight := List.replicate 2048 1
  bn1_bias := List.replicate 2048 0
  bn1_mean := List.replicate 2048 0
  bn1_var := List.replicate 2048 1
  bn2_weight := List.replicate 4096 1
  bn2_bias := List.replicate 4096 0
  bn2_mean := List.replicate 4096 0
  bn2_var := List.replicate 4096 1

/-- A concrete well-formed PointCloudCompletionNet. -/
def zeroPCCN : PointCloudCompletionNet where
  input_points := 1024
  output_points := 2048
  encoder := zeroEncoder
  decoder := zeroDecoder

/-! ### Basic lemmas about the tensor primitives -/

theorem linear_length (w : List (List ℝ)) (b : List ℝ) (x : List ℝ)
    (hwb : w.length = b.length) : (linear w b x).length = w.length := by
  induction w generalizing b with
  | nil => simp [linear]
  | cons r ws ih =>
    cases b with
    | nil => simp at hwb
    | cons bi bs =>
      simp only [linear, List.length_cons]
      rw [ih bs (by simpa using hwb)]

theorem linear_getD (w : List (List ℝ)) (b : List ℝ) (x : List ℝ) (i : ℕ)
    (hwb : w.length = b.length) (hi : i < w.length) :
    (linear w b x).getD i 0 = dot (w.getD i []) x + b.getD i 0 := by
  induction w generalizing b i with
  | nil => simp at hi
  | cons r ws ih =>
    cases b with
    | nil => simp at hwb
    | cons bi bs =>
      cases i with
      | zero => simp [linear]
      | succ i =>
        simp only [linear, List.getD_cons_succ]
        exact ih bs i (by simpa using hwb) (by simpa using hi)

theorem bnRowE_length (g bi mu v y : List ℝ) (eps : ℝ)
    (hb : bi.length = g.length) (hm : mu.length = g.length)
    (hv : v.length = g.length) (hy : y.length = g.length) :
    (bnRowE g bi mu v eps y).length = g.length := by
  induction g generalizing bi mu v y with
  | nil => simp [bnRowE]
  | cons a g ih =>
    cases bi with
    | nil => simp at hb
    | cons b bs =>
      cases mu with
      | nil => simp at hm
      | cons m ms =>
        cases v with
        | nil => simp at hv
        | cons vv vs =>
          cases y with
          | nil => simp at hy
          | cons t ts =>
            simp only [bnRowE, List.length_cons]
            rw [ih bs ms vs ts (by simpa using hb) (by simpa using hm)
              (by simpa using hv) (by simpa using hy)]

theorem bnRowE_getD (g bi mu v y : List ℝ) (eps : ℝ) (c : ℕ)
    (hb : bi.length = g.length) (hm : mu.length = g.length)
    (hv : v.length = g.length) (hy : y.length = g.length)
    (hc : c < g.length) :
    (bnRowE g bi mu v eps y).getD c 0 =
      normScalarE (g.getD c 0) (bi.getD c 0) (mu.getD c 0) (v.getD c 0)
        eps (y.getD c 0) := by
  induction g generalizing bi mu v y c with
  | nil => simp at hc
  | cons a g ih =>
    cases bi with
    | nil => simp at hb
    | cons b bs =>
      cases mu with
      | nil => simp at hm
      | cons m ms =>
        cases v with
        | nil => simp at hv
        | cons vv vs =>
          cases y with
          | nil => simp at hy
          | cons t ts =>
            cases c with
            | zero => simp [bnRowE]
            | succ c =>
              simp only [bnRowE, List.getD_cons_succ]
              exact ih bs ms vs ts c (by simpa using hb) (by simpa using hm)
                (by simpa using hv) (by simpa using hy) (by simpa using hc)

theorem bnRow_length (g bi mu v y : List ℝ)
    (hb : bi.length = g.length) (hm : mu.length = g.length)
    (hv : v.length = g.length) (hy : y.length = g.length) :
    (bnRow g bi mu v y).length = g.length :=
  bnRowE_length g bi mu v y bnEps hb hm hv hy

theorem bnRow_getD (g bi mu v y : List ℝ) (c : ℕ)
    (hb : bi.length = g.length) (hm : mu.length = g.length)
    (hv : v.length = g.length) (hy : y.length = g.length)
    (hc : c < g.length) :
    (bnRow g bi mu v y).getD c 0 =
      normScalar (g.getD c 0) (bi.getD c 0) (mu.getD c 0) (v.getD c 0)
        (y.getD c 0) :=
  bnRowE_getD g bi mu v y bnEps c hb hm hv hy hc

theorem reluRow_length (y : List ℝ) : (reluRow y).length = y.length := by
  simp [reluRow]

theorem reluRow_getD (y : List ℝ) (c : ℕ) (hc : c < y.length) :
    (reluRow y).getD c 0 = max (y.getD c 0) 0 := by
  rw [List.getD_eq_getElem _ _ (by simpa [reluRow] using hc),
    List.getD_eq_getElem _ _ hc]
  simp [reluRow]

theorem reluRow_nonneg (y : List ℝ) : ∀ t ∈ reluRow y, 0 ≤ t := by
  intro t ht
  simp only [reluRow, List.mem_map] at ht
  obtain ⟨s, _, rfl⟩ := ht
  exact le_max_right _ _

theorem listMax_cons (t : ℝ) (l : List ℝ) (hl : l ≠ []) :
    listMax (t :: l) = max t (listMax l) := by
  cases l with
  | nil => exact absurd rfl hl
  | cons s ls => rfl

theorem listMax_mem (l : List ℝ) (hl : l ≠ []) : listMax l ∈ l := by
  induction l with
  | nil => exact absurd rfl hl
  | cons t ls ih =>
    cases ls with
    | nil => simp [listMax]
    | cons s ls2 =>
      rw [listMax_cons _ _ (by simp)]
      rcases le_total t (listMax (s :: ls2)) with h | h
      · rw [max_eq_right h]
        exact List.mem_cons_of_mem _ (ih (by simp))
      · rw [max_eq_left h]
        exact List.mem_cons_self _ _

theorem le_listMax (l : List ℝ) (t : ℝ) (ht : t ∈ l) : t ≤ listMax l := by
  induction l with
  | nil => simp at ht
  | cons s ls ih =>
    cases ls with
    | nil =>
      rw [List.mem_singleton] at ht
      simp [ht, listMax]
    | cons u ls2 =>
      rw [listMax_cons _ _ (by simp)]
      rcases List.mem_cons.mp ht with rfl | h
      · exact le_max_left _ _
      · exact le_trans (ih h) (le_max_right _ _)

theorem listMax_congr (l l' : List ℝ) (hl : l ≠ []) (hl' : l' ≠ [])
    (h : ∀ t, t ∈ l ↔ t ∈ l') : listMax l = listMax l' :=
  le_antisymm (le_listMax l' _ ((h _).mp (listMax_mem l hl)))
    (le_listMax l _ ((h _).mpr (listMax_mem l' hl')))

theorem zipWith_max_getD (a b : List ℝ) (c : ℕ) (ha : c < a.length)
    (hb : c < b.length) :
    (List.zipWith max a b).getD c 0 = max (a.getD c 0) (b.getD c 0) := by
  have hz : c < (List.zipWith max a b).length := by
    rw [List.length_zipWith]
    exact lt_min ha hb
  rw [List.getD_eq_getElem _ _ hz, List.getD_eq_getElem _ _ ha,
    List.getD_eq_getElem _ _ hb]
  exact List.getElem_zipWith

theorem colMax_length (l : List (List ℝ)) (F : ℕ) (hne : l ≠ [])
    (h : ∀ r ∈ l, r.length = F) : (colMax l).length = F := by
  induction l with
  | nil => exact absurd rfl hne
  | cons r ls ih =>
    cases ls with
    | nil => simpa [colMax] using h r (by simp)
    | cons s ls2 =>
      show (List.zipWith max r (colMax (s :: ls2))).length = F
      rw [List.length_zipWith,
        ih (by simp) (fun q hq => h q (List.mem_cons_of_mem _ hq)),
        h r (by simp)]
      simp

theorem colMax_getD (l : List (List ℝ)) (F c : ℕ) (hne : l ≠ [])
    (h : ∀ r ∈ l, r.length = F) (hc : c < F) :
    (colMax l).getD c 0 = listMax (l.map (fun r => r.getD c 0)) := by
  induction l with
  | nil => exact absurd rfl hne
  | cons r ls ih =>
    cases ls with
    | nil => simp [colMax, listMax]
    | cons s ls2 =>
      have htail : (s :: ls2 : List (List ℝ)) ≠ [] := by simp
      have htlen : ∀ q ∈ s :: ls2, q.length = F :=
        fun q hq => h q (List.mem_cons_of_mem _ hq)
      have hr : listMax (List.map (fun q => q.getD c 0) (r :: s :: ls2)) =
          max (r.getD c 0)
            (listMax (List.map (fun q => q.getD c 0) (s :: ls2))) := by
        rw [List.map_cons]
        exact listMax_cons _ _ (by simp)
      show (List.zipWith max r (colMax (s :: ls2))).getD c 0 = _
      rw [hr, zipWith_max_getD _ _ _ (by rw [h r (by simp)]; exact hc)
        (by rw [colMax_length _ _ htail htlen]; exact hc),
        ih htail htlen]

theorem toRows_nil (k : ℕ) : toRows k [] = [] := by
  rw [toRows]
  simp

theorem toRows_eq_cons (k : ℕ) (l : List ℝ) (hk : k ≠ 0) (hl : l ≠ []) :
    toRows k l = l.take k :: toRows k (l.drop k) := by
  rw [toRows]
  simp [hk, hl]

theorem toRows_flatten (rows : List (List ℝ)) (k : ℕ) (hk : k ≠ 0)
    (h : ∀ r ∈ rows, r.length = k) : toRows k rows.flatten = rows := by
  induction rows with
  | nil => simp [toRows_nil]
  | cons r rs ih =>
    have hr : r.length = k := h r (by simp)
    have hpos : 0 < (r ++ rs.flatten).length := by
      rw [List.length_append, hr]
      exact Nat.lt_of_lt_of_le (Nat.pos_of_ne_zero hk) (Nat.le_add_right _ _)
    have ht : (r ++ rs.flatten).take k = r := by
      rw [← hr]
      exact List.take_left r _
    have hd : (r ++ rs.flatten).drop k = rs.flatten := by
      rw [← hr]
      exact List.drop_left r _
    rw [List.flatten_cons,
      toRows_eq_cons k _ hk (List.ne_nil_of_length_pos hpos), ht, hd,
      ih (fun q hq => h q (List.mem_cons_of_mem _ hq))]

theorem toRows_length (k : ℕ) (hk : k ≠ 0) (n : ℕ) :
    ∀ l : List ℝ, l.length = k * n → (toRows k l).length = n := by
  induction n with
  | zero =>
    intro l hl
    have : l = [] := List.length_eq_zero.mp (by simpa using hl)
    simp [this, toRows_nil]
  | succ n ih =>
    intro l hl
    have hlpos : 0 < l.length := by
      rw [hl]
      exact Nat.mul_pos (Nat.pos_of_ne_zero hk) (Nat.succ_pos n)
    rw [toRows_eq_cons k l hk (List.ne_nil_of_length_pos hlpos),
      List.length_cons,
      ih (l.drop k) (by rw [List.length_drop, hl, Nat.mul_succ, Nat.add_sub_cancel])]

theorem toRows_mem_length (k : ℕ) (hk : k ≠ 0) (n : ℕ) :
    ∀ l : List ℝ, l.length = k * n → ∀ r ∈ toRows k l, r.length = k := by
  induction n with
  | zero =>
    intro l hl
    have : l = [] := List.length_eq_zero.mp (by simpa using hl)
    simp [this, toRows_nil]
  | succ n ih =>
    intro l hl r hr
    have hlpos : 0 < l.length := by
      rw [hl]
      exact Nat.mul_pos (Nat.pos_of_ne_zero hk) (Nat.succ_pos n)
    rw [toRows_eq_cons k l hk (List.ne_nil_of_length_pos hlpos)] at hr
    rcases List.mem_cons.mp hr with rfl | hmem
    · rw [List.length_take, hl]
      have : k ≤ k * (n + 1) := Nat.le_mul_of_pos_right k (Nat.succ_pos n)
      omega
    · exact ih (l.drop k)
        (by rw [List.length_drop, hl, Nat.mul_succ, Nat.add_sub_cancel]) r hmem

theorem toRows_getD (k : ℕ) (hk : k ≠ 0) (i : ℕ) :
    ∀ l : List ℝ, (toRows k l).getD i [] = (l.drop (k * i)).take k := by
  induction i with
  | zero =>
    intro l
    cases l with
    | nil => simp [toRows_nil]
    | cons a l2 =>
      rw [toRows_eq_cons k _ hk (by simp)]
      simp
  | succ i ih =>
    intro l
    cases l with
    | nil => simp [toRows_nil]
    | cons a l2 =>
      rw [toRows_eq_cons k _ hk (by simp), List.getD_cons_succ, ih, List.drop_drop]
      congr 2
      rw [Nat.mul_succ]
      omega

theorem take_three_eq (l : List ℝ) (i : ℕ) (h : 3 * i + 3 ≤ l.length) :
    (l.drop (3 * i)).take 3 =
      [l.getD (3 * i) 0, l.getD (3 * i + 1) 0, l.getD (3 * i + 2) 0] := by
  have h0 : 3 * i < l.length := by omega
  have h1 : 3 * i + 1 < l.length := by omega
  have h2 : 3 * i + 2 < l.length := by omega
  rw [List.getD_eq_getElem _ _ h0, List.getD_eq_getElem _ _ h1,
    List.getD_eq_getElem _ _ h2, List.drop_eq_getElem_cons h0,
    List.drop_eq_getElem_cons h1, List.drop_eq_getElem_cons h2]
  rfl

theorem numel_rect (rows : List (List ℝ)) (d : ℕ)
    (h : ∀ r ∈ rows, r.length = d) : numel rows = rows.length * d := by
  induction rows with
  | nil => simp [numel]
  | cons r rs ih =>
    have := ih (fun q hq => h q (List.mem_cons_of_mem _ hq))
    simp only [numel, List.map_cons, List.sum_cons, List.length_cons] at *
    rw [h r (by simp), this]
    ring

theorem flatten_numel (rows : List (List ℝ)) :
    rows.flatten.length = numel rows := by
  simp [numel, List.length_flatten]

theorem getD_map' {α β : Type} (f : α → β) (l : List α) (j : ℕ)
    (hj : j < l.length) (d1 : β) (d2 : α) :
    (l.map f).getD j d1 = f (l.getD j d2) := by
  rw [List.getD_eq_getElem _ _ (by simpa using hj),
    List.getD_eq_getElem _ _ hj, List.getElem_map]

theorem range_map_getD (p : List ℝ) (d : ℕ) (hp : p.length = d) :
    (List.range d).map (fun c => p.getD c 0) = p := by
  apply List.ext_getElem
  · simp [hp]
  · intro i h1 h2
    rw [List.getElem_map, List.getElem_range, List.getD_eq_getElem _ _ h2]

theorem tensorTranspose_length (d : ℕ) (rows : List (List ℝ)) :
    (tensorTranspose d rows).length = d := by
  simp [tensorTranspose]

theorem tensorTranspose_getD (d : ℕ) (rows : List (List ℝ)) (c : ℕ)
    (hc : c < d) :
    (tensorTranspose d rows).getD c [] =
      rows.map (fun r => r.getD c 0) := by
  unfold tensorTranspose
  rw [getD_map' _ _ _ (by simpa using hc) [] 0]
  rw [List.getD_eq_getElem _ _ (by simpa using hc), List.getElem_range]

theorem conv1dK1_length (w : List (List ℝ)) (b : List ℝ)
    (x : List (List ℝ)) (hwb : w.length = b.length) :
    (conv1dK1 w b x).length = w.length := by
  induction w generalizing b with
  | nil => simp [conv1dK1]
  | cons r ws ih =>
    cases b with
    | nil => simp at hwb
    | cons bi bs =>
      simp only [conv1dK1, List.length_cons]
      rw [ih bs (by simpa using hwb)]

theorem conv1dK1_getD (w : List (List ℝ)) (b : List ℝ)
    (x : List (List ℝ)) (i : ℕ) (hwb : w.length = b.length)
    (hi : i < w.length) :
    (conv1dK1 w b x).getD i [] =
      (List.range (x.headD []).length).map
        (fun j => dot (w.getD i []) (x.map (fun r => r.getD j 0)) +
          b.getD i 0) := by
  induction w generalizing b i with
  | nil => simp at hi
  | cons r ws ih =>
    cases b with
    | nil => simp at hwb
    | cons bi bs =>
      cases i with
      | zero => simp [conv1dK1]
      | succ i =>
        simp only [conv1dK1, List.getD_cons_succ]
        exact ih bs i (by simpa using hwb) (by simpa using hi)

theorem batchNormCF_length (g bi mu v : List ℝ) (x : List (List ℝ))
    (hb : bi.length = g.length) (hm : mu.length = g.length)
    (hv : v.length = g.length) (hx : x.length = g.length) :
    (batchNormCF g bi mu v x).length = g.length := by
  induction g generalizing bi mu v x with
  | nil => simp [batchNormCF]
  | cons a g ih =>
    cases bi with
    | nil => simp at hb
    | cons b bs =>
      cases mu with
      | nil => simp at hm
      | cons m ms =>
        cases v with
        | nil => simp at hv
        | cons vv vs =>
          cases x with
          | nil => simp at hx
          | cons row rows =>
            simp only [batchNormCF, List.length_cons]
            rw [ih bs ms vs rows (by simpa using hb) (by simpa using hm)
              (by simpa using hv) (by simpa using hx)]

theorem batchNormCF_getD (g bi mu v : List ℝ) (x : List (List ℝ)) (c : ℕ)
    (hb : bi.length = g.length) (hm : mu.length = g.length)
    (hv : v.length = g.length) (hx : x.length = g.length)
    (hc : c < g.length) :
    (batchNormCF g bi mu v x).getD c [] =
      (x.getD c []).map (fun t =>
        normScalar (g.getD c 0) (bi.getD c 0) (mu.getD c 0) (v.getD c 0)
          t) := by
  induction g generalizing bi mu v x c with
  | nil => simp at hc
  | cons a g ih =>
    cases bi with
    | nil => simp at hb
    | cons b bs =>
      cases mu with
      | nil => simp at hm
      | cons m ms =>
        cases v with
        | nil => simp at hv
        | cons vv vs =>
          cases x with
          | nil => simp at hx
          | cons row rows =>
            cases c with
            | zero => simp [batchNormCF]
            | succ c =>
              simp only [batchNormCF, List.getD_cons_succ]
              exact ih bs ms vs rows c (by simpa using hb)
                (by simpa using hm) (by simpa using hv) (by simpa using hx)
                (by simpa using hc)

/-! ### SimplePCN: structural lemmas and the canonical form of forward -/

theorem SimplePCN.encoder_eq_map (m : SimplePCN) (x : List (List ℝ)) :
    m.encoder x = x.map m.encoderRow := by
  simp [SimplePCN.encoder, SimplePCN.encoderRow, linearBatch, batchNorm1d,
    reluBatch, List.map_map, Function.comp]

theorem SimplePCN.decoder_single (m : SimplePCN) (g : List ℝ) :
    m.decoder [g] = [m.decoderRow g] := by
  simp [SimplePCN.decoder, SimplePCN.decoderRow, linearBatch, batchNorm1d,
    reluBatch]

theorem SimplePCN.encoderRow_length (m : SimplePCN) (hm : m.Valid)
    (p : List ℝ) : (m.encoderRow p).length = m.feature_dim := by
  have h1 : (linear m.w1 m.b1 p).length = 128 := by
    rw [linear_length _ _ _ (hm.hw1.trans hm.hb1.symm), hm.hw1]
  have h2 : (bnRow m.bn1_weight m.bn1_bias m.bn1_mean m.bn1_var
      (linear m.w1 m.b1 p)).length = 128 := by
    rw [bnRow_length _ _ _ _ _ (hm.hs1.trans hm.hg1.symm)
      (hm.hm1.trans hm.hg1.symm) (hm.hv1.trans hm.hg1.symm)
      (h1.trans hm.hg1.symm), hm.hg1]
  have h3 : (linear m.w2 m.b2 (reluRow (bnRow m.bn1_weight m.bn1_bias
      m.bn1_mean m.bn1_var (linear m.w1 m.b1 p)))).length = 256 := by
    rw [linear_length _ _ _ (hm.hw2.trans hm.hb2.symm), hm.hw2]
  have h4 : (bnRow m.bn2_weight m.bn2_bias m.bn2_mean m.bn2_var
      (linear m.w2 m.b2 (reluRow (bnRow m.bn1_weight m.bn1_bias m.bn1_mean
        m.bn1_var (linear m.w1 m.b1 p))))).length = 256 := by
    rw [bnRow_length _ _ _ _ _ (hm.hs2.trans hm.hg2.symm)
      (hm.hm2.trans hm.hg2.symm) (hm.hv2.trans hm.hg2.symm)
      (h3.trans hm.hg2.symm), hm.hg2]
  have h5 : (linear m.w3 m.b3 (reluRow (bnRow m.bn2_weight m.bn2_bias
      m.bn2_mean m.bn2_var (linear m.w2 m.b2 (reluRow (bnRow m.bn1_weight
        m.bn1_bias m.bn1_mean m.bn1_var
          (linear m.w1 m.b1 p))))))).length = m.feature_dim := by
    rw [linear_length _ _ _ (hm.hw3.trans hm.hb3.symm), hm.hw3]
  show (reluRow (bnRow m.bn3_weight m.bn3_bias m.bn3_mean m.bn3_var
    _)).length = m.feature_dim
  rw [reluRow_length, bnRow_length _ _ _ _ _ (hm.hs3.trans hm.hg3.symm)
    (hm.hm3.trans hm.hg3.symm) (hm.hv3.trans hm.hg3.symm)
    (h5.trans hm.hg3.symm), hm.hg3]

theorem SimplePCN.decoderRow_length (m : SimplePCN) (hm : m.Valid)
    (x : List ℝ) : (m.decoderRow x).length = m.output_points * 3 := by
  show (linear m.w6 m.b6 _).length = m.output_points * 3
  rw [linear_length _ _ _ (hm.hw6.trans hm.hb6.symm), hm.hw6]

theorem SimplePCN.featureRows_length (m : SimplePCN) (hm : m.Valid)
    (cloud : List (List ℝ)) :
    ∀ r ∈ cloud.map m.encoderRow, r.length = m.feature_dim := by
  intro r hr
  obtain ⟨p, _, rfl⟩ := List.mem_map.mp hr
  exact m.encoderRow_length hm p

theorem SimplePCN.forward_ok (m : SimplePCN) (hm : m.Valid)
    (cloud : List (List ℝ)) (hrect : ∀ p ∈ cloud, p.length = 3)
    (hne : cloud ≠ []) :
    m.forward cloud =
      .ok (toRows 3 (m.decoderRow (m.globalFeature cloud))) := by
  have hnum : numel cloud = cloud.length * 3 := numel_rect _ _ hrect
  have hdvd : 3 ∣ numel cloud := by
    rw [hnum]
    exact dvd_mul_left 3 cloud.length
  have hx : toRows 3 cloud.flatten = cloud :=
    toRows_flatten cloud 3 (by norm_num) hrect
  have hfl : ∀ r ∈ cloud.map m.encoderRow, r.length = m.feature_dim :=
    m.featureRows_length hm cloud
  have hnumf : numel (cloud.map m.encoderRow) =
      cloud.length * m.feature_dim := by
    rw [numel_rect _ _ hfl, List.length_map]
  have hN : ¬ cloud.length = 0 := fun h0 => hne (List.length_eq_zero.mp h0)
  have hxf : toRows m.feature_dim (cloud.map m.encoderRow).flatten =
      cloud.map m.encoderRow :=
    toRows_flatten _ _ (Nat.pos_iff_ne_zero.mp hm.hfd) hfl
  have hnumd : numel [m.decoderRow (colMax (cloud.map m.encoderRow))] =
      m.output_points * 3 := by
    simp only [numel, List.map_cons, List.map_nil, List.sum_cons,
      List.sum_nil, Nat.add_zero]
    exact m.decoderRow_length hm _
  simp only [SimplePCN.forward]
  rw [if_pos hdvd, hx, SimplePCN.encoder_eq_map, if_pos hnumf, if_neg hN,
    hxf, SimplePCN.decoder_single, if_pos hnumd]
  simp [SimplePCN.globalFeature]

/-! ### Channels-first bridge: the Conv1d pipeline is the shared per-point
MLP in transposed layout -/

theorem matrix_ext (A B : List (List ℝ)) (hlen : A.length = B.length)
    (hrow : ∀ i, i < A.length → (A.getD i []).length = (B.getD i []).length)
    (hentry : ∀ i j, i < A.length → j < (A.getD i []).length →
      (A.getD i []).getD j 0 = (B.getD i []).getD j 0) : A = B := by
  apply List.ext_getElem hlen
  intro i h1 h2
  have hAi := List.getD_eq_getElem A [] h1
  have hBi := List.getD_eq_getElem B [] h2
  apply List.ext_getElem
  · rw [← hAi, ← hBi]
    exact hrow i h1
  · intro j hj1 hj2
    have := hentry i j h1 (by rw [hAi]; exact hj1)
    rw [hAi, hBi] at this
    rwa [List.getD_eq_getElem _ _ hj1, List.getD_eq_getElem _ _ hj2] at this

theorem getD_matrix_mem (l : List (List ℝ)) (j : ℕ) (hj : j < l.length) :
    l.getD j [] ∈ l := by
  rw [List.getD_eq_getElem _ _ hj]
  exact List.getElem_mem hj

theorem transpose_headD_length (dIn : ℕ) (rows : List (List ℝ))
    (hd : dIn ≠ 0) :
    ((tensorTranspose dIn rows).headD []).length = rows.length := by
  cases dIn with
  | zero => exact absurd rfl hd
  | succ k =>
    rw [tensorTranspose, List.range_succ_eq_map, List.map_cons]
    simp

theorem transpose_column (dIn : ℕ) (rows : List (List ℝ)) (j : ℕ)
    (hj : j < rows.length) (hrect : ∀ p ∈ rows, p.length = dIn) :
    (tensorTranspose dIn rows).map (fun r => r.getD j 0) =
      rows.getD j [] := by
  unfold tensorTranspose
  rw [List.map_map]
  have hcong : ∀ c ∈ List.range dIn,
      ((fun r => r.getD j 0) ∘ fun c => rows.map fun r => r.getD c 0) c =
        (rows.getD j []).getD c 0 := by
    intro c _
    simp only [Function.comp]
    exact getD_map' _ rows j hj 0 []
  rw [List.map_congr_left hcong]
  exact range_map_getD _ dIn (hrect _ (getD_matrix_mem rows j hj))

theorem conv1dK1_transpose (w : List (List ℝ)) (b : List ℝ) (dIn : ℕ)
    (rows : List (List ℝ)) (hwb : w.length = b.length)
    (hrect : ∀ p ∈ rows, p.length = dIn) (hd : dIn ≠ 0) :
    conv1dK1 w b (tensorTranspose dIn rows) =
      tensorTranspose w.length (rows.map (linear w b)) := by
  have hn : ((tensorTranspose dIn rows).headD []).length = rows.length :=
    transpose_headD_length dIn rows hd
  apply matrix_ext
  · rw [conv1dK1_length _ _ _ hwb, tensorTranspose_length]
  · intro i hi
    rw [conv1dK1_length _ _ _ hwb] at hi
    rw [conv1dK1_getD _ _ _ _ hwb hi, tensorTranspose_getD _ _ _ hi, hn]
    simp
  · intro i j hi hj
    rw [conv1dK1_length _ _ _ hwb] at hi
    rw [conv1dK1_getD _ _ _ _ hwb hi] at hj ⊢
    rw [List.length_map, List.length_range, hn] at hj
    have hj' : j < ((tensorTranspose dIn rows).headD []).length := by
      rw [hn]
      exact hj
    have hrange : (List.range
        ((tensorTranspose dIn rows).headD []).length).getD j 0 = j := by
      rw [List.getD_eq_getElem _ _ (by simpa using hj')]
      exact List.getElem_range _ _
    have hL : ((List.range
        ((tensorTranspose dIn rows).headD []).length).map
          (fun c => dot (w.getD i [])
            ((tensorTranspose dIn rows).map (fun r => r.getD c 0)) +
              b.getD i 0)).getD j 0 =
        dot (w.getD i []) (rows.getD j []) + b.getD i 0 := by
      rw [getD_map' _ _ j (by simpa using hj') 0 0]
      simp only [hrange]
      rw [transpose_column dIn rows j hj hrect]
    have hR : ((tensorTranspose w.length
        (rows.map (linear w b))).getD i []).getD j 0 =
        dot (w.getD i []) (rows.getD j []) + b.getD i 0 := by
      rw [tensorTranspose_getD _ _ _ hi,
        getD_map' _ _ j (by simpa using hj) 0 [],
        getD_map' (linear w b) rows j hj [] [],
        linear_getD _ _ _ _ hwb hi]
    rw [hL, hR]

theorem batchNormCF_transpose (g bi mu v : List ℝ) (F : ℕ)
    (rows : List (List ℝ)) (hg : g.length = F) (hb : bi.length = g.length)
    (hm : mu.length = g.length) (hv : v.length = g.length)
    (hrect : ∀ p ∈ rows, p.length = F) :
    batchNormCF g bi mu v (tensorTranspose F rows) =
      tensorTranspose F (rows.map (bnRow g bi mu v)) := by
  have hx : (tensorTranspose F rows).length = g.length := by
    rw [tensorTranspose_length, hg]
  have hgetD : ∀ c, c < F →
      (batchNormCF g bi mu v (tensorTranspose F rows)).getD c [] =
        (rows.map fun r => r.getD c 0).map (fun t =>
          normScalar (g.getD c 0) (bi.getD c 0) (mu.getD c 0) (v.getD c 0)
            t) := by
    intro c hc
    have hcg : c < g.length := by rw [hg]; exact hc
    rw [batchNormCF_getD _ _ _ _ _ _ hb hm hv hx hcg,
      tensorTranspose_getD _ _ _ hc]
  apply matrix_ext
  · rw [batchNormCF_length _ _ _ _ _ hb hm hv hx, hg,
      tensorTranspose_length]
  · intro c hc
    rw [batchNormCF_length _ _ _ _ _ hb hm hv hx, hg] at hc
    rw [hgetD c hc, tensorTranspose_getD _ _ _ hc]
    simp
  · intro c j hc hj
    rw [batchNormCF_length _ _ _ _ _ hb hm hv hx, hg] at hc
    have hcg : c < g.length := by
      rw [hg]
      exact hc
    rw [hgetD c hc] at hj ⊢
    rw [List.length_map, List.length_map] at hj
    have hjm : j < (rows.map fun r => r.getD c 0).length := by
      rw [List.length_map]
      exact hj
    have hrowlen : c < (rows.getD j []).length := by
      rw [hrect _ (getD_matrix_mem rows j hj)]
      exact hc
    have hL : ((rows.map fun r => r.getD c 0).map (fun t =>
        normScalar (g.getD c 0) (bi.getD c 0) (mu.getD c 0) (v.getD c 0)
          t)).getD j 0 =
        normScalar (g.getD c 0) (bi.getD c 0) (mu.getD c 0) (v.getD c 0)
          ((rows.getD j []).getD c 0) := by
      rw [getD_map' _ _ j hjm 0 0, getD_map' _ rows j hj 0 []]
    have hR : ((tensorTranspose F (rows.map (bnRow g bi mu v))).getD c
        []).getD j 0 =
        normScalar (g.getD c 0) (bi.getD c 0) (mu.getD c 0) (v.getD c 0)
          ((rows.getD j []).getD c 0) := by
      have hjm2 : j < (rows.map (bnRow g bi mu v)).length := by
        rw [List.length_map]
        exact hj
      rw [tensorTranspose_getD _ _ _ hc, getD_map' _ _ j hjm2 0 [],
        getD_map' (bnRow g bi mu v) rows j hj [] [],
        bnRow_getD _ _ _ _ _ _ hb hm hv
          ((hrect _ (getD_matrix_mem rows j hj)).trans hg.symm) hcg]
    rw [hL, hR]

theorem reluCF_transpose (F : ℕ) (rows : List (List ℝ))
    (hrect : ∀ p ∈ rows, p.length = F) :
    reluCF (tensorTranspose F rows) =
      tensorTranspose F (rows.map reluRow) := by
  have hlen : (tensorTranspose F rows).length = F :=
    tensorTranspose_length F rows
  have hgetD : ∀ c, c < F →
      (reluCF (tensorTranspose F rows)).getD c [] =
        reluRow (rows.map fun r => r.getD c 0) := by
    intro c hc
    have hcl : c < (tensorTranspose F rows).length := by
      rw [hlen]
      exact hc
    rw [reluCF, getD_map' reluRow _ c hcl [] [],
      tensorTranspose_getD _ _ _ hc]
  apply matrix_ext
  · rw [reluCF, List.length_map, hlen, tensorTranspose_length]
  · intro c hc
    rw [reluCF, List.length_map, hlen] at hc
    rw [hgetD c hc, tensorTranspose_getD _ _ _ hc, reluRow_length]
    simp
  · intro c j hc hj
    rw [reluCF, List.length_map, hlen] at hc
    rw [hgetD c hc] at hj ⊢
    rw [reluRow_length, List.length_map] at hj
    have hjm : j < (rows.map fun r => r.getD c 0).length := by
      rw [List.length_map]
      exact hj
    have hrowlen : c < (rows.getD j []).length := by
      rw [hrect _ (getD_matrix_mem rows j hj)]
      exact hc
    have hL : (reluRow (rows.map fun r => r.getD c 0)).getD j 0 =
        max ((rows.getD j []).getD c 0) 0 := by
      rw [reluRow_getD _ j hjm, getD_map' _ rows j hj 0 []]
    have hR : ((tensorTranspose F (rows.map reluRow)).getD c []).getD j
        0 = max ((rows.getD j []).getD c 0) 0 := by
      have hjm2 : j < (rows.map reluRow).length := by
        rw [List.length_map]
        exact hj
      rw [tensorTranspose_getD _ _ _ hc, getD_map' _ _ j hjm2 0 [],
        getD_map' reluRow rows j hj [] [], reluRow_getD _ c hrowlen]
    rw [hL, hR]

theorem map_linear_rect (w : List (List ℝ)) (b : List ℝ)
    (rows : List (List ℝ)) (n : ℕ) (hwb : w.length = b.length)
    (hw : w.length = n) :
    ∀ p ∈ rows.map (linear w b), p.length = n := by
  intro p hp
  obtain ⟨q, _, rfl⟩ := List.mem_map.mp hp
  rw [linear_length _ _ _ hwb, hw]

theorem map_bnRow_rect (g bi mu v : List ℝ) (rows : List (List ℝ))
    (n : ℕ) (hb : bi.length = g.length) (hm : mu.length = g.length)
    (hv : v.length = g.length) (hg : g.length = n)
    (hin : ∀ p ∈ rows, p.length = n) :
    ∀ p ∈ rows.map (bnRow g bi mu v), p.length = n := by
  intro p hp
  obtain ⟨q, hq, rfl⟩ := List.mem_map.mp hp
  rw [bnRow_length _ _ _ _ _ hb hm hv ((hin q hq).trans hg.symm), hg]

theorem map_reluRow_rect (rows : List (List ℝ)) (n : ℕ)
    (hin : ∀ p ∈ rows, p.length = n) :
    ∀ p ∈ rows.map reluRow, p.length = n := by
  intro p hp
  obtain ⟨q, hq, rfl⟩ := List.mem_map.mp hp
  rw [reluRow_length]
  exact hin q hq

theorem PointCloudEncoder.features_transpose (e : PointCloudEncoder)
    (he : e.Valid) (rows : List (List ℝ))
    (hrect : ∀ p ∈ rows, p.length = 3) :
    e.features (tensorTranspose 3 rows) =
      tensorTranspose e.feature_dim (rows.map e.pointFeature) := by
  have hwb1 : e.conv1_w.length = e.conv1_b.length :=
    he.hw1.trans he.hb1.symm
  have hwb2 : e.conv2_w.length = e.conv2_b.length :=
    he.hw2.trans he.hb2.symm
  have hwb3 : e.conv3_w.length = e.conv3_b.length :=
    he.hw3.trans he.hb3.symm
  have h1 := conv1dK1_transpose e.conv1_w e.conv1_b 3 rows hwb1 hrect
    (by norm_num)
  rw [he.hw1] at h1
  have hr1 := map_linear_rect e.conv1_w e.conv1_b rows 64 hwb1 he.hw1
  have h2 := batchNormCF_transpose e.bn1_weight e.bn1_bias e.bn1_mean
    e.bn1_var 64 (rows.map (linear e.conv1_w e.conv1_b)) he.hg1
    (he.hs1.trans he.hg1.symm) (he.hm1.trans he.hg1.symm)
    (he.hv1.trans he.hg1.symm) hr1
  have hr2 := map_bnRow_rect e.bn1_weight e.bn1_bias e.bn1_mean e.bn1_var
    (rows.map (linear e.conv1_w e.conv1_b)) 64
    (he.hs1.trans he.hg1.symm) (he.hm1.trans he.hg1.symm)
    (he.hv1.trans he.hg1.symm) he.hg1 hr1
  have h3 := reluCF_transpose 64 ((rows.map (linear e.conv1_w e.conv1_b)).map (bnRow e.bn1_weight e.bn1_bias e.bn1_mean e.bn1_var)) hr2
  have hr3 := map_reluRow_rect ((rows.map (linear e.conv1_w e.conv1_b)).map (bnRow e.bn1_weight e.bn1_bias e.bn1_mean e.bn1_var)) 64 hr2
  have h4 := conv1dK1_transpose e.conv2_w e.conv2_b 64 (((rows.map (linear e.conv1_w e.conv1_b)).map (bnRow e.bn1_weight e.bn1_bias e.bn1_mean e.bn1_var)).map reluRow) hwb2 hr3
    (by norm_num)
  rw [he.hw2] at h4
  have hr4 := map_linear_rect e.conv2_w e.conv2_b (((rows.map (linear e.conv1_w e.conv1_b)).map (bnRow e.bn1_weight e.bn1_bias e.bn1_mean e.bn1_var)).map reluRow) 128 hwb2 he.hw2
  have h5 := batchNormCF_transpose e.bn2_weight e.bn2_bias e.bn2_mean
    e.bn2_var 128 ((((rows.map (linear e.conv1_w e.conv1_b)).map (bnRow e.bn1_weight e.bn1_bias e.bn1_mean e.bn1_var)).map reluRow).map (linear e.conv2_w e.conv2_b)) he.hg2 (he.hs2.trans he.hg2.symm)
    (he.hm2.trans he.hg2.symm) (he.hv2.trans he.hg2.symm) hr4
  have hr5 := map_bnRow_rect e.bn2_weight e.bn2_bias e.bn2_mean e.bn2_var
    ((((rows.map (linear e.conv1_w e.conv1_b)).map (bnRow e.bn1_weight e.bn1_bias e.bn1_mean e.bn1_var)).map reluRow).map (linear e.conv2_w e.conv2_b)) 128 (he.hs2.trans he.hg2.symm) (he.hm2.trans he.hg2.symm)
    (he.hv2.trans he.hg2.symm) he.hg2 hr4
  have h6 := reluCF_transpose 128 (((((rows.map (linear e.conv1_w e.conv1_b)).map (bnRow e.bn1_weight e.bn1_bias e.bn1_mean e.bn1_var)).map reluRow).map (linear e.conv2_w e.conv2_b)).map (bnRow e.bn2_weight e.bn2_bias e.bn2_mean e.bn2_var)) hr5
  have hr6 := map_reluRow_rect (((((rows.map (linear e.conv1_w e.conv1_b)).map (bnRow e.bn1_weight e.bn1_bias e.bn1_mean e.bn1_var)).map reluRow).map (linear e.conv2_w e.conv2_b)).map (bnRow e.bn2_weight e.bn2_bias e.bn2_mean e.bn2_var)) 128 hr5
  have h7 := conv1dK1_transpose e.conv3_w e.conv3_b 128 ((((((rows.map (linear e.conv1_w e.conv1_b)).map (bnRow e.bn1_weight e.bn1_bias e.bn1_mean e.bn1_var)).map reluRow).map (linear e.conv2_w e.conv2_b)).map (bnRow e.bn2_weight e.bn2_bias e.bn2_mean e.bn2_var)).map reluRow) hwb3 hr6
    (by norm_num)
  rw [he.hw3] at h7
  have hr7 := map_linear_rect e.conv3_w e.conv3_b ((((((rows.map (linear e.conv1_w e.conv1_b)).map (bnRow e.bn1_weight e.bn1_bias e.bn1_mean e.bn1_var)).map reluRow).map (linear e.conv2_w e.conv2_b)).map (bnRow e.bn2_weight e.bn2_bias e.bn2_mean e.bn2_var)).map reluRow) e.feature_dim hwb3
    he.hw3
  have h8 := batchNormCF_transpose e.bn3_weight e.bn3_bias e.bn3_mean
    e.bn3_var e.feature_dim (((((((rows.map (linear e.conv1_w e.conv1_b)).map (bnRow e.bn1_weight e.bn1_bias e.bn1_mean e.bn1_var)).map reluRow).map (linear e.conv2_w e.conv2_b)).map (bnRow e.bn2_weight e.bn2_bias e.bn2_mean e.bn2_var)).map reluRow).map (linear e.conv3_w e.conv3_b)) he.hg3 (he.hs3.trans he.hg3.symm)
    (he.hm3.trans he.hg3.symm) (he.hv3.trans he.hg3.symm) hr7
  have hr8 := map_bnRow_rect e.bn3_weight e.bn3_bias e.bn3_mean e.bn3_var
    (((((((rows.map (linear e.conv1_w e.conv1_b)).map (bnRow e.bn1_weight e.bn1_bias e.bn1_mean e.bn1_var)).map reluRow).map (linear e.conv2_w e.conv2_b)).map (bnRow e.bn2_weight e.bn2_bias e.bn2_mean e.bn2_var)).map reluRow).map (linear e.conv3_w e.conv3_b)) e.feature_dim (he.hs3.trans he.hg3.symm)
    (he.hm3.trans he.hg3.symm) (he.hv3.trans he.hg3.symm) he.hg3 hr7
  have h9 := reluCF_transpose e.feature_dim ((((((((rows.map (linear e.conv1_w e.conv1_b)).map (bnRow e.bn1_weight e.bn1_bias e.bn1_mean e.bn1_var)).map reluRow).map (linear e.conv2_w e.conv2_b)).map (bnRow e.bn2_weight e.bn2_bias e.bn2_mean e.bn2_var)).map reluRow).map (linear e.conv3_w e.conv3_b)).map (bnRow e.bn3_weight e.bn3_bias e.bn3_mean e.bn3_var)) hr8
  rw [PointCloudEncoder.features, h1, h2, h3, h4, h5, h6, h7, h8, h9]
  simp only [List.map_map]
  rfl

theorem PointCloudDecoder.flat_length (d : PointCloudDecoder)
    (hd : d.Valid) (x : List ℝ) :
    (d.flat x).length = d.output_points * 3 := by
  show (linear d.fc3_w d.fc3_b _).length = d.output_points * 3
  rw [linear_length _ _ _ (hd.hw3.trans hd.hb3.symm), hd.hw3]

theorem PointCloudCompletionNet.pccnForward_ok (m : PointCloudCompletionNet)
    (hm : m.Valid) (cloud : List (List ℝ))
    (hrect : ∀ p ∈ cloud, p.length = 3) (hne : cloud ≠ []) :
    m.forward cloud =
      .ok (toRows 3 (m.decoder.flat (m.globalFeature cloud))) := by
  have hd3 : (cloud.headD []).length = 3 := by
    cases cloud with
    | nil => exact absurd rfl hne
    | cons p ps =>
      rw [List.headD_cons]
      exact hrect p (List.mem_cons_self _ _)
  have hN : ¬ cloud.length = 0 := fun h0 => hne (List.length_eq_zero.mp h0)
  have hgf : (tensorTranspose m.encoder.feature_dim
      (cloud.map m.encoder.pointFeature)).map listMax =
      m.globalFeature cloud := rfl
  simp only [PointCloudCompletionNet.forward]
  rw [hd3, if_pos rfl, if_neg hN]
  rw [PointCloudEncoder.forward,
    PointCloudEncoder.features_transpose m.encoder hm.henc cloud hrect,
    hgf]
  simp only [PointCloudDecoder.forward]
  rw [if_pos (m.decoder.flat_length hm.hdec _)]

/-! ### Permutation/duplication invariance and nonnegativity of the
global descriptor -/

theorem SimplePCN.globalFeature_congr (m : SimplePCN) (hm : m.Valid)
    (pc qc : List (List ℝ)) (hne : pc ≠ []) (hne' : qc ≠ [])
    (hmem : ∀ p, p ∈ pc ↔ p ∈ qc) :
    m.globalFeature pc = m.globalFeature qc := by
  have hmapne : pc.map m.encoderRow ≠ [] :=
    List.ne_nil_of_length_pos
      (by rw [List.length_map]; exact List.length_pos.mpr hne)
  have hmapne' : qc.map m.encoderRow ≠ [] :=
    List.ne_nil_of_length_pos
      (by rw [List.length_map]; exact List.length_pos.mpr hne')
  have hf := m.featureRows_length hm pc
  have hf' := m.featureRows_length hm qc
  have hlen : (m.globalFeature pc).length = m.feature_dim :=
    colMax_length _ _ hmapne hf
  have hlen' : (m.globalFeature qc).length = m.feature_dim :=
    colMax_length _ _ hmapne' hf'
  apply List.ext_getElem (hlen.trans hlen'.symm)
  intro c h1 h2
  have hc : c < m.feature_dim := by
    rw [← hlen]
    exact h1
  rw [← List.getD_eq_getElem _ 0 h1, ← List.getD_eq_getElem _ 0 h2]
  show (colMax (pc.map m.encoderRow)).getD c 0 =
    (colMax (qc.map m.encoderRow)).getD c 0
  rw [colMax_getD _ _ _ hmapne hf hc, colMax_getD _ _ _ hmapne' hf' hc]
  apply listMax_congr
  · exact List.ne_nil_of_length_pos
      (by rw [List.length_map, List.length_map]
          exact List.length_pos.mpr hne)
  · exact List.ne_nil_of_length_pos
      (by rw [List.length_map, List.length_map]
          exact List.length_pos.mpr hne')
  · intro t
    simp only [List.mem_map]
    constructor
    · rintro ⟨r, ⟨p, hp, rfl⟩, rfl⟩
      exact ⟨m.encoderRow p, ⟨p, (hmem p).mp hp, rfl⟩, rfl⟩
    · rintro ⟨r, ⟨p, hp, rfl⟩, rfl⟩
      exact ⟨m.encoderRow p, ⟨p, (hmem p).mpr hp, rfl⟩, rfl⟩

theorem PointCloudCompletionNet.pccnGlobalFeature_congr
    (m : PointCloudCompletionNet) (pc qc : List (List ℝ)) (hne : pc ≠ [])
    (hne' : qc ≠ []) (hmem : ∀ p, p ∈ pc ↔ p ∈ qc) :
    m.globalFeature pc = m.globalFeature qc := by
  unfold PointCloudCompletionNet.globalFeature tensorTranspose
  rw [List.map_map, List.map_map]
  apply List.map_congr_left
  intro c _
  simp only [Function.comp]
  apply listMax_congr
  · exact List.ne_nil_of_length_pos
      (by rw [List.length_map, List.length_map]
          exact List.length_pos.mpr hne)
  · exact List.ne_nil_of_length_pos
      (by rw [List.length_map, List.length_map]
          exact List.length_pos.mpr hne')
  · intro t
    simp only [List.mem_map]
    constructor
    · rintro ⟨r, ⟨p, hp, rfl⟩, rfl⟩
      exact ⟨m.encoder.pointFeature p, ⟨p, (hmem p).mp hp, rfl⟩, rfl⟩
    · rintro ⟨r, ⟨p, hp, rfl⟩, rfl⟩
      exact ⟨m.encoder.pointFeature p, ⟨p, (hmem p).mpr hp, rfl⟩, rfl⟩

theorem listMax_nonneg (l : List ℝ) (h : ∀ t ∈ l, 0 ≤ t) :
    0 ≤ listMax l := by
  cases l with
  | nil => simp [listMax]
  | cons t ts => exact h _ (listMax_mem _ (by simp))

theorem getD_nonneg (r : List ℝ) (c : ℕ) (h : ∀ t ∈ r, 0 ≤ t) :
    0 ≤ r.getD c 0 := by
  by_cases hc : c < r.length
  · rw [List.getD_eq_getElem _ _ hc]
    exact h _ (List.getElem_mem hc)
  · rw [List.getD_eq_default _ _ (le_of_not_lt hc)]

theorem zipWith_max_nonneg (a b : List ℝ) (ha : ∀ t ∈ a, 0 ≤ t) :
    ∀ t ∈ List.zipWith max a b, 0 ≤ t := by
  induction a generalizing b with
  | nil => simp
  | cons x xs ih =>
    cases b with
    | nil => simp
    | cons y ys =>
      intro t ht
      rw [List.zipWith_cons_cons] at ht
      rcases List.mem_cons.mp ht with rfl | h2
      · exact le_trans (ha x (by simp)) (le_max_left x y)
      · exact ih ys (fun u hu => ha u (List.mem_cons_of_mem _ hu)) t h2

theorem colMax_nonneg (l : List (List ℝ))
    (h : ∀ r ∈ l, ∀ t ∈ r, 0 ≤ t) : ∀ t ∈ colMax l, 0 ≤ t := by
  induction l with
  | nil => simp [colMax]
  | cons r ls ih =>
    cases ls with
    | nil => exact fun t ht => h r (by simp) t ht
    | cons s ls2 =>
      show ∀ t ∈ List.zipWith max r (colMax (s :: ls2)), 0 ≤ t
      exact zipWith_max_nonneg r _ (h r (by simp))

theorem SimplePCN.encoderRow_nonneg (m : SimplePCN) (p : List ℝ) :
    ∀ t ∈ m.encoderRow p, 0 ≤ t :=
  reluRow_nonneg _

theorem SimplePCN.globalFeature_nonneg (m : SimplePCN)
    (pc : List (List ℝ)) : ∀ t ∈ m.globalFeature pc, 0 ≤ t := by
  apply colMax_nonneg
  intro r hr
  obtain ⟨p, _, rfl⟩ := List.mem_map.mp hr
  exact m.encoderRow_nonneg p

theorem PointCloudEncoder.pointFeature_nonneg (e : PointCloudEncoder)
    (p : List ℝ) : ∀ t ∈ e.pointFeature p, 0 ≤ t :=
  reluRow_nonneg _

theorem PointCloudCompletionNet.pccnGlobalFeature_nonneg
    (m : PointCloudCompletionNet) (pc : List (List ℝ)) :
    ∀ t ∈ m.globalFeature pc, 0 ≤ t := by
  intro t ht
  unfold PointCloudCompletionNet.globalFeature tensorTranspose at ht
  rw [List.map_map] at ht
  obtain ⟨c, _, rfl⟩ := List.mem_map.mp ht
  simp only [Function.comp]
  apply listMax_nonneg
  intro u hu
  obtain ⟨r, hr, rfl⟩ := List.mem_map.mp hu
  obtain ⟨p, _, rfl⟩ := List.mem_map.mp hr
  exact getD_nonneg _ _ (m.encoder.pointFeature_nonneg p)

/-! ### Validated spec-model pipeline -/

theorem Layer.run_length (l : Layer) (d f : ℕ)
    (hc : l.checkFrom d = some f) (x : List ℝ) (hx : x.length = d) :
    (l.run x).length = f := by
  cases l with
  | affine w b =>
    simp only [Layer.checkFrom] at hc
    by_cases hcond : w.length = b.length ∧ ∀ r ∈ w, r.length = d
    · rw [if_pos hcond] at hc
      injection hc with hf
      show (linear w b x).length = f
      rw [linear_length _ _ _ hcond.1, hf]
    · rw [if_neg hcond] at hc
      cases hc
  | normalize g sh mu v eps =>
    simp only [Layer.checkFrom] at hc
    by_cases hcond : g.length = d ∧ sh.length = d ∧ mu.length = d ∧
      v.length = d
    · rw [if_pos hcond] at hc
      injection hc with hf
      show (bnRowE g sh mu v eps x).length = f
      rw [bnRowE_length _ _ _ _ _ _ (hcond.2.1.trans hcond.1.symm)
        (hcond.2.2.1.trans hcond.1.symm) (hcond.2.2.2.trans hcond.1.symm)
        (hx.trans hcond.1.symm), hcond.1, hf]
    · rw [if_neg hcond] at hc
      cases hc
  | relu =>
    simp only [Layer.checkFrom] at hc
    injection hc with hf
    show (reluRow x).length = f
    rw [reluRow_length, hx, hf]

theorem runLayers_length (ls : List Layer) :
    ∀ (d f : ℕ) (x : List ℝ), chainDims d ls = some f → x.length = d →
      (runLayers ls x).length = f := by
  induction ls with
  | nil =>
    intro d f x hch hx
    simp only [chainDims] at hch
    injection hch with hdf
    show x.length = f
    rw [hx, hdf]
  | cons l ls ih =>
    intro d f x hch hx
    simp only [chainDims] at hch
    cases hc : l.checkFrom d with
    | none =>
      rw [hc] at hch
      simp at hch
    | some e =>
      rw [hc] at hch
      have hstep := Layer.run_length l d e hc x hx
      have hfold : runLayers (l :: ls) x = runLayers ls (l.run x) := rfl
      rw [hfold]
      exact ih e f (l.run x) hch hstep

theorem loadModel_ok (enc dec : List Layer) (ic oc fd : ℕ)
    (m : SpecModel) (h : loadModel enc dec ic oc fd = .ok m) :
    chainDims 3 enc = some fd ∧ chainDims fd dec = some (oc * 3) ∧
      m = ⟨enc, dec, ic, oc, fd⟩ := by
  unfold loadModel at h
  split at h
  · cases h
  · rename_i f henc
    split at h
    · rename_i hf
      subst hf
      split at h
      · cases h
      · rename_i o hdec
        split at h
        · rename_i ho
          subst ho
          injection h with hm
          exact ⟨henc, hdec, hm.symm⟩
        · cases h
    · cases h

theorem SpecModel.complete_ok (m : SpecModel) (f : ℕ)
    (henc : chainDims 3 m.encLayers = some f)
    (hdec : chainDims f m.decLayers = some (m.outputCount * 3))
    (cloud : List (List ℝ)) (hrect : ∀ p ∈ cloud, p.length = 3)
    (hne : cloud ≠ []) :
    ∃ out, m.complete cloud = .ok out ∧ out.length = m.outputCount ∧
      ∀ p ∈ out, p.length = 3 := by
  cases cloud with
  | nil => exact absurd rfl hne
  | cons p ps =>
    have hfeat : ∀ r ∈ (p :: ps).map (runLayers m.encLayers),
        r.length = f := by
      intro r hr
      obtain ⟨q, hq, rfl⟩ := List.mem_map.mp hr
      exact runLayers_length _ 3 f q henc (hrect q hq)
    have hglob : (colMax ((p :: ps).map (runLayers m.encLayers))).length
        = f := colMax_length _ _ (by simp) hfeat
    have hflat : (runLayers m.decLayers
        (colMax ((p :: ps).map (runLayers m.encLayers)))).length =
        m.outputCount * 3 :=
      runLayers_length _ f _ _ hdec hglob
    have hflat' : (runLayers m.decLayers
        (colMax ((p :: ps).map (runLayers m.encLayers)))).length =
        3 * m.outputCount := by
      rw [hflat, Nat.mul_comm]
    refine ⟨toRows 3 (runLayers m.decLayers
      (colMax ((p :: ps).map (runLayers m.encLayers)))), ?_, ?_, ?_⟩
    · simp only [SpecModel.complete]
      rw [if_pos hrect]
    · exact toRows_length 3 (by norm_num) m.outputCount _ hflat'
    · exact toRows_mem_length 3 (by norm_num) m.outputCount _ hflat'

/-! ### Failure analysis of SimplePCN.forward on invalid inputs -/

theorem SimplePCN.forward_nil (m : SimplePCN) :
    m.forward [] = .error .shapeError := by
  have henc : m.encoder (toRows 3 ([] : List (List ℝ)).flatten) = [] := by
    rw [show ([] : List (List ℝ)).flatten = ([] : List ℝ) from rfl,
      toRows_nil]
    simp [SimplePCN.encoder, linearBatch, batchNorm1d, reluBatch]
  simp only [SimplePCN.forward, henc]
  rw [if_pos (by simp [numel]), if_pos (by simp [numel]),
    if_pos List.length_nil]

theorem SimplePCN.forward_err (m : SimplePCN) (hm : m.Valid)
    (cloud : List (List ℝ)) (d : ℕ) (hrect : ∀ p ∈ cloud, p.length = d)
    (hbad : cloud = [] ∨ d ≠ 3) :
    m.forward cloud = .error .shapeError := by
  by_cases hnil : cloud = []
  · rw [hnil]
    exact m.forward_nil
  · have hd : d ≠ 3 := hbad.resolve_left hnil
    have hN : 0 < cloud.length := List.length_pos.mpr hnil
    have hnum : numel cloud = cloud.length * d := numel_rect _ _ hrect
    by_cases hdvd : 3 ∣ numel cloud
    · obtain ⟨M, hM⟩ := hdvd
      have hxlen : (toRows 3 cloud.flatten).length = M :=
        toRows_length 3 (by norm_num) M _ (by rw [flatten_numel, hM])
      have hfeats : ∀ r ∈ (toRows 3 cloud.flatten).map m.encoderRow,
          r.length = m.feature_dim := m.featureRows_length hm _
      have hnumf : numel ((toRows 3 cloud.flatten).map m.encoderRow) =
          M * m.feature_dim := by
        rw [numel_rect _ _ hfeats, List.length_map, hxlen]
      have hMneq : M ≠ cloud.length := by
        intro hMeq
        rw [hMeq, hnum, Nat.mul_comm 3 cloud.length] at hM
        exact hd (Nat.eq_of_mul_eq_mul_left hN hM)
      have hcheck : ¬ numel ((toRows 3 cloud.flatten).map m.encoderRow) =
          cloud.length * m.feature_dim := by
        rw [hnumf]
        intro heq
        exact hMneq (Nat.eq_of_mul_eq_mul_right hm.hfd heq)
      simp only [SimplePCN.forward]
      rw [if_pos ⟨M, hM⟩, SimplePCN.encoder_eq_map, if_neg hcheck]
    · simp only [SimplePCN.forward]
      rw [if_neg hdvd]

/-! ### Well-formedness of the concrete zero models -/

theorem zeroSimple_valid : zeroSimple.Valid := by
  constructor <;>
    first
      | exact List.length_replicate _ _
      | (intro r hr
         rw [List.eq_of_mem_replicate hr]
         exact List.length_replicate _ _)
      | decide

theorem zeroEncoder_valid : zeroEncoder.Valid := by
  constructor <;>
    first
      | exact List.length_replicate _ _
      | (intro r hr
         rw [List.eq_of_mem_replicate hr]
         exact List.length_replicate _ _)
      | decide

theorem zeroDecoder_valid : zeroDecoder.Valid := by
  constructor <;>
    first
      | exact List.length_replicate _ _
      | (intro r hr
         rw [List.eq_of_mem_replicate hr]
         exact List.length_replicate _ _)
      | decide

theorem zeroPCCN_valid : zeroPCCN.Valid := by
  refine ⟨?_, ?_, ?_, ?_⟩
  · exact zeroEncoder_valid
  · exact zeroDecoder_valid
  · rfl
  · rfl

/-! ### The claims -/

/-- C1: for every valid Model of either network variant with
OUTPUT_COUNT = 2048, and every partial point cloud of any N > 0 points
each having exactly 3 coordinates, the forward pass (`complete()`)
succeeds and returns a point cloud of exactly 2048 points of 3
coordinates each, independent of N. -/
theorem c1_shape_invariant :
    (∀ (m : SimplePCN) (cloud : List (List ℝ)), m.Valid →
      m.output_points = 2048 → (∀ p ∈ cloud, p.length = 3) →
      cloud ≠ [] → ∃ out, m.forward cloud = .ok out ∧
        out.length = 2048 ∧ ∀ p ∈ out, p.length = 3) ∧
    (∀ (m : PointCloudCompletionNet) (cloud : List (List ℝ)), m.Valid →
      m.output_points = 2048 → (∀ p ∈ cloud, p.length = 3) →
      cloud ≠ [] → ∃ out, m.forward cloud = .ok out ∧
        out.length = 2048 ∧ ∀ p ∈ out, p.length = 3) := by
  constructor
  · intro m cloud hm hoc hrect hne
    have hlen : (m.decoderRow (m.globalFeature cloud)).length =
        3 * m.output_points := by
      rw [m.decoderRow_length hm, Nat.mul_comm]
    refine ⟨_, m.forward_ok hm cloud hrect hne, ?_, ?_⟩
    · rw [toRows_length 3 (by norm_num) m.output_points _ hlen, hoc]
    · exact toRows_mem_length 3 (by norm_num) m.output_points _ hlen
  · intro m cloud hm hoc hrect hne
    have hlen : (m.decoder.flat (m.globalFeature cloud)).length =
        3 * m.output_points := by
      rw [m.decoder.flat_length hm.hdec, hm.hoc, Nat.mul_comm]
    refine ⟨_, m.pccnForward_ok hm cloud hrect hne, ?_, ?_⟩
    · rw [toRows_length 3 (by norm_num) m.output_points _ hlen, hoc]
    · exact toRows_mem_length 3 (by norm_num) m.output_points _ hlen

/-- C1 witness at a concrete valid model of each variant and the
one-point cloud [[0,0,0]]. -/
theorem c1_shape_invariant_witness :
    (∃ out, zeroSimple.forward [[0, 0, 0]] = .ok out ∧
      out.length = 2048 ∧ ∀ p ∈ out, p.length = 3) ∧
    (∃ out, zeroPCCN.forward [[0, 0, 0]] = .ok out ∧
      out.length = 2048 ∧ ∀ p ∈ out, p.length = 3) :=
  ⟨c1_shape_invariant.1 zeroSimple [[0, 0, 0]] zeroSimple_valid rfl
      (by simp) (by simp),
    c1_shape_invariant.2 zeroPCCN [[0, 0, 0]] zeroPCCN_valid rfl
      (by simp) (by simp)⟩

/-- C2: for every valid Model of either variant, replacing the non-empty
partial cloud by any other non-empty cloud containing exactly the same
points — in particular any permutation, reordering or duplication of the
points — yields the identical completed cloud under exact-arithmetic
semantics: the per-point encoder applies shared weights and the
aggregation is an element-wise maximum over the point dimension. -/
theorem c2_permutation_invariance :
    (∀ (m : SimplePCN) (pc qc : List (List ℝ)), m.Valid →
      (∀ p ∈ pc, p.length = 3) → pc ≠ [] → qc ≠ [] →
      (∀ p, p ∈ pc ↔ p ∈ qc) → m.forward pc = m.forward qc) ∧
    (∀ (m : PointCloudCompletionNet) (pc qc : List (List ℝ)), m.Valid →
      (∀ p ∈ pc, p.length = 3) → pc ≠ [] → qc ≠ [] →
      (∀ p, p ∈ pc ↔ p ∈ qc) → m.forward pc = m.forward qc) := by
  constructor
  · intro m pc qc hm hrect hne hne' hmem
    have hrect' : ∀ p ∈ qc, p.length = 3 :=
      fun p hp => hrect p ((hmem p).mpr hp)
    rw [m.forward_ok hm pc hrect hne, m.forward_ok hm qc hrect' hne',
      m.globalFeature_congr hm pc qc hne hne' hmem]
  · intro m pc qc hm hrect hne hne' hmem
    have hrect' : ∀ p ∈ qc, p.length = 3 :=
      fun p hp => hrect p ((hmem p).mpr hp)
    rw [m.pccnForward_ok hm pc hrect hne, m.pccnForward_ok hm qc hrect' hne',
      m.pccnGlobalFeature_congr pc qc hne hne' hmem]

/-- C2 witness: swapping the two points of a concrete cloud leaves the
output of both variants unchanged. -/
theorem c2_permutation_invariance_witness :
    zeroSimple.forward [[0, 0, 0], [1, 2, 3]] =
      zeroSimple.forward [[1, 2, 3], [0, 0, 0]] ∧
    zeroPCCN.forward [[0, 0, 0], [1, 2, 3]] =
      zeroPCCN.forward [[1, 2, 3], [0, 0, 0]] :=
  ⟨c2_permutation_invariance.1 zeroSimple [[0, 0, 0], [1, 2, 3]]
      [[1, 2, 3], [0, 0, 0]] zeroSimple_valid (by simp) (by simp)
      (by simp) (fun p => by simp [or_comm]),
    c2_permutation_invariance.2 zeroPCCN [[0, 0, 0], [1, 2, 3]]
      [[1, 2, 3], [0, 0, 0]] zeroPCCN_valid (by simp) (by simp)
      (by simp) (fun p => by simp [or_comm])⟩

/-- C3: calling the forward pass with an empty point set, or with a
rectangular cloud whose points have other than 3 coordinates, fails with
ShapeError — the single structural error kind — rather than succeeding
or failing with some other error. -/
theorem c3_invalid_input_shape_error :
    ∀ (m : SimplePCN) (cloud : List (List ℝ)) (d : ℕ), m.Valid →
      (∀ p ∈ cloud, p.length = d) → (cloud = [] ∨ d ≠ 3) →
      m.forward cloud = .error .shapeError :=
  fun m cloud d hm hrect hbad => m.forward_err hm cloud d hrect hbad

/-- C3 witness: the empty cloud and a cloud of 4-coordinate points both
fail with ShapeError on a concrete valid model. -/
theorem c3_invalid_input_shape_error_witness :
    zeroSimple.forward [] = .error .shapeError ∧
    zeroSimple.forward [[1, 2, 3, 4]] = .error .shapeError :=
  ⟨c3_invalid_input_shape_error zeroSimple [] 3 zeroSimple_valid
      (by simp) (Or.inl rfl),
    c3_invalid_input_shape_error zeroSimple [[1, 2, 3, 4]] 4
      zeroSimple_valid (by simp) (Or.inr (by norm_num))⟩

/-- C10: for every valid Model of either variant and non-empty
3-dimensional input, every channel of the aggregated global descriptor
is nonnegative: the encoder's last step is the clamp-at-zero
nonlinearity, and the element-wise maximum over points preserves the
lower bound. -/
theorem c10_global_descriptor_nonneg :
    (∀ (m : SimplePCN) (cloud : List (List ℝ)), m.Valid →
      (∀ p ∈ cloud, p.length = 3) → cloud ≠ [] →
      ∀ t ∈ m.globalFeature cloud, 0 ≤ t) ∧
    (∀ (m : PointCloudCompletionNet) (cloud : List (List ℝ)), m.Valid →
      (∀ p ∈ cloud, p.length = 3) → cloud ≠ [] →
      ∀ t ∈ m.globalFeature cloud, 0 ≤ t) :=
  ⟨fun m cloud _ _ _ => m.globalFeature_nonneg cloud,
    fun m cloud _ _ _ => m.pccnGlobalFeature_nonneg cloud⟩

/-- C10 witness at a concrete valid model of each variant. -/
theorem c10_global_descriptor_nonneg_witness :
    (∀ t ∈ zeroSimple.globalFeature [[0, 0, 0]], 0 ≤ t) ∧
    (∀ t ∈ zeroPCCN.globalFeature [[0, 0, 0]], 0 ≤ t) :=
  ⟨c10_global_descriptor_nonneg.1 zeroSimple [[0, 0, 0]]
      zeroSimple_valid (by simp) (by simp),
    c10_global_descriptor_nonneg.2 zeroPCCN [[0, 0, 0]]
      zeroPCCN_valid (by simp) (by simp)⟩

/-- C4: Model construction validates chained layer dimensions once:
`loadModel` fails with ShapeError when the encoder layer dimensions do
not chain from the point dimension 3, or the decoder layer dimensions do
not chain from the encoder's outgoing dimension; and on any Model that
passed construction, `complete` on a valid input never raises a
dimension error at call time — it succeeds with a well-shaped output. -/
theorem c4_model_validation :
    (∀ (enc dec : List Layer) (ic oc fd : ℕ), chainDims 3 enc = none →
      loadModel enc dec ic oc fd = .error .shapeError) ∧
    (∀ (enc dec : List Layer) (ic oc fd f : ℕ),
      chainDims 3 enc = some f → chainDims f dec = none →
      loadModel enc dec ic oc fd = .error .shapeError) ∧
    (∀ (enc dec : List Layer) (ic oc fd : ℕ) (m : SpecModel),
      loadModel enc dec ic oc fd = .ok m →
      ∀ cloud : List (List ℝ), (∀ p ∈ cloud, p.length = 3) →
        cloud ≠ [] → ∃ out, m.complete cloud = .ok out ∧
          out.length = m.outputCount ∧ ∀ p ∈ out, p.length = 3) := by
  refine ⟨?_, ?_, ?_⟩
  · intro enc dec ic oc fd h
    unfold loadModel
    rw [h]
  · intro enc dec ic oc fd f henc hdec
    unfold loadModel
    simp only [henc]
    by_cases hf : f = fd
    · rw [if_pos hf, ← hf]
      simp only [hdec]
    · rw [if_neg hf]
  · intro enc dec ic oc fd m h cloud hrect hne
    obtain ⟨henc, hdec, hm⟩ := loadModel_ok enc dec ic oc fd m h
    subst hm
    exact SpecModel.complete_ok _ fd henc hdec cloud hrect hne

/-- C4 witness: a non-chaining encoder list and a non-chaining decoder
list are both rejected at construction, while a chained model loads and
then completes a concrete valid cloud without any call-time error. -/
theorem c4_model_validation_witness :
    loadModel [Layer.affine [[1, 0]] [0]] [Layer.affine [[1], [1], [1]]
        [0, 0, 0]] 5 1 1 = .error .shapeError ∧
    loadModel [Layer.affine [[1, 0, 0]] [0]] [Layer.affine [[1, 1]] [0]]
        5 1 1 = .error .shapeError ∧
    (∃ out, SpecModel.complete ⟨[Layer.affine [[1, 0, 0]] [0]],
        [Layer.affine [[1], [1], [1]] [0, 0, 0]], 5, 1, 1⟩
        [[1, 2, 3]] = .ok out ∧
      out.length = 1 ∧ ∀ p ∈ out, p.length = 3) :=
  ⟨c4_model_validation.1 [Layer.affine [[1, 0]] [0]]
      [Layer.affine [[1], [1], [1]] [0, 0, 0]] 5 1 1 rfl,
    c4_model_validation.2.1 [Layer.affine [[1, 0, 0]] [0]]
      [Layer.affine [[1, 1]] [0]] 5 1 1 1 rfl rfl,
    c4_model_validation.2.2 [Layer.affine [[1, 0, 0]] [0]]
      [Layer.affine [[1], [1], [1]] [0, 0, 0]] 5 1 1
      ⟨[Layer.affine [[1, 0, 0]] [0]],
        [Layer.affine [[1], [1], [1]] [0, 0, 0]], 5, 1, 1⟩ rfl
      [[1, 2, 3]] (by simp) (by simp)⟩

/-- C5: every normalization step at inference — the row-mode BatchNorm1d
of the MLP stacks and the channels-first BatchNorm1d of the Conv1d stack
— computes the spec's formula `z = scale * (y - mean) / sqrt(var + eps)
+ shift` from the stored per-channel constants, and each entry of the
result is a pure function of that single entry of the input and the
stored constants, with no dependence on the other points in the call or
on the number of points processed. -/
theorem c5_normalization_pointwise :
    (∀ (g bi mu v : List ℝ) (rows : List (List ℝ)) (j c : ℕ),
      bi.length = g.length → mu.length = g.length →
      v.length = g.length → j < rows.length →
      (rows.getD j []).length = g.length → c < g.length →
      ((batchNorm1d g bi mu v rows).getD j []).getD c 0 =
        specNormalize (g.getD c 0) (bi.getD c 0) (mu.getD c 0)
          (v.getD c 0) bnEps ((rows.getD j []).getD c 0)) ∧
    (∀ (g bi mu v : List ℝ) (x : List (List ℝ)) (c j : ℕ),
      bi.length = g.length → mu.length = g.length →
      v.length = g.length → x.length = g.length → c < g.length →
      j < (x.getD c []).length →
      ((batchNormCF g bi mu v x).getD c []).getD j 0 =
        specNormalize (g.getD c 0) (bi.getD c 0) (mu.getD c 0)
          (v.getD c 0) bnEps ((x.getD c []).getD j 0)) := by
  have hform : ∀ a b c d e : ℝ,
      normScalar a b c d e = specNormalize a b c d bnEps e := by
    intro a b c d e
    simp only [normScalar, normScalarE, specNormalize]
    ring
  constructor
  · intro g bi mu v rows j c hb hm hv hj hrow hc
    rw [show batchNorm1d g bi mu v rows =
        rows.map (bnRow g bi mu v) from rfl,
      getD_map' (bnRow g bi mu v) rows j hj [] [],
      bnRow_getD _ _ _ _ _ _ hb hm hv hrow hc, hform]
  · intro g bi mu v x c j hb hm hv hx hc hj
    rw [batchNormCF_getD _ _ _ _ _ _ hb hm hv hx hc,
      getD_map' _ _ j hj 0 0, hform]

/-- C5 witness: both normalization modes at concrete stored constants
(scale 2, shift 3, mean 1, variance 0) and input entry 5. -/
theorem c5_normalization_pointwise_witness :
    ((batchNorm1d [2] [3] [1] [0] [[5]]).getD 0 []).getD 0 0 =
      specNormalize 2 3 1 0 bnEps 5 ∧
    ((batchNormCF [2] [3] [1] [0] [[5]]).getD 0 []).getD 0 0 =
      specNormalize 2 3 1 0 bnEps 5 :=
  ⟨c5_normalization_pointwise.1 [2] [3] [1] [0] [[5]] 0 0 rfl rfl rfl
      (by norm_num) rfl (by norm_num),
    c5_normalization_pointwise.2 [2] [3] [1] [0] [[5]] 0 0 rfl rfl rfl
      rfl (by norm_num) (by norm_num)⟩

/-- C6: in both decoders, every layer is (affine, then normalization,
then clamp-at-zero nonlinearity) except the final layer, which applies
only the affine transform — the decoder computation refines the spec's
tagged layer list whose last element is a bare affine layer, with no
normalize and no relu after it. -/
theorem c6_decoder_final_affine :
    (∀ (m : SimplePCN) (x : List ℝ),
      m.decoderRow x = runLayers [Layer.affine m.w4 m.b4,
        Layer.normalize m.bn4_weight m.bn4_bias m.bn4_mean m.bn4_var
          bnEps, Layer.relu, Layer.affine m.w5 m.b5,
        Layer.normalize m.bn5_weight m.bn5_bias m.bn5_mean m.bn5_var
          bnEps, Layer.relu, Layer.affine m.w6 m.b6] x) ∧
    (∀ (d : PointCloudDecoder) (x : List ℝ),
      d.flat x = runLayers [Layer.affine d.fc1_w d.fc1_b,
        Layer.normalize d.bn1_weight d.bn1_bias d.bn1_mean d.bn1_var
          bnEps, Layer.relu, Layer.affine d.fc2_w d.fc2_b,
        Layer.normalize d.bn2_weight d.bn2_bias d.bn2_mean d.bn2_var
          bnEps, Layer.relu, Layer.affine d.fc3_w d.fc3_b] x) :=
  ⟨fun _ _ => rfl, fun _ _ => rfl⟩

/-- C7: for every valid Model of either variant and valid input, the
completed cloud is the decoder's flat output reshaped row-major: output
point i is exactly the flat vector's entries at positions 3i, 3i+1 and
3i+2. -/
theorem c7_rowmajor_reshape :
    (∀ (m : SimplePCN) (cloud : List (List ℝ)), m.Valid →
      (∀ p ∈ cloud, p.length = 3) → cloud ≠ [] →
      ∃ out, m.forward cloud = .ok out ∧ ∀ i < m.output_points,
        out.getD i [] =
          [(m.decoderRow (m.globalFeature cloud)).getD (3 * i) 0,
            (m.decoderRow (m.globalFeature cloud)).getD (3 * i + 1) 0,
            (m.decoderRow (m.globalFeature cloud)).getD (3 * i + 2) 0]) ∧
    (∀ (m : PointCloudCompletionNet) (cloud : List (List ℝ)), m.Valid →
      (∀ p ∈ cloud, p.length = 3) → cloud ≠ [] →
      ∃ out, m.forward cloud = .ok out ∧ ∀ i < m.output_points,
        out.getD i [] =
          [(m.decoder.flat (m.globalFeature cloud)).getD (3 * i) 0,
            (m.decoder.flat (m.globalFeature cloud)).getD (3 * i + 1) 0,
            (m.decoder.flat (m.globalFeature cloud)).getD
              (3 * i + 2) 0]) := by
  constructor
  · intro m cloud hm hrect hne
    refine ⟨_, m.forward_ok hm cloud hrect hne, ?_⟩
    intro i hi
    have hflen : (m.decoderRow (m.globalFeature cloud)).length =
        m.output_points * 3 := m.decoderRow_length hm _
    rw [toRows_getD 3 (by norm_num) i]
    exact take_three_eq _ i (by rw [hflen]; omega)
  · intro m cloud hm hrect hne
    refine ⟨_, m.pccnForward_ok hm cloud hrect hne, ?_⟩
    intro i hi
    have hflen : (m.decoder.flat (m.globalFeature cloud)).length =
        m.output_points * 3 := by
      rw [m.decoder.flat_length hm.hdec, hm.hoc]
    rw [toRows_getD 3 (by norm_num) i]
    exact take_three_eq _ i (by rw [hflen]; omega)

/-- C7 witness at a concrete valid model of each variant. -/
theorem c7_rowmajor_reshape_witness :
    (∃ out, zeroSimple.forward [[0, 0, 0]] = .ok out ∧
      ∀ i < zeroSimple.output_points, out.getD i [] =
        [(zeroSimple.decoderRow
            (zeroSimple.globalFeature [[0, 0, 0]])).getD (3 * i) 0,
          (zeroSimple.decoderRow
            (zeroSimple.globalFeature [[0, 0, 0]])).getD (3 * i + 1) 0,
          (zeroSimple.decoderRow
            (zeroSimple.globalFeature [[0, 0, 0]])).getD
              (3 * i + 2) 0]) ∧
    (∃ out, zeroPCCN.forward [[0, 0, 0]] = .ok out ∧
      ∀ i < zeroPCCN.output_points, out.getD i [] =
        [(zeroPCCN.decoder.flat
            (zeroPCCN.globalFeature [[0, 0, 0]])).getD (3 * i) 0,
          (zeroPCCN.decoder.flat
            (zeroPCCN.globalFeature [[0, 0, 0]])).getD (3 * i + 1) 0,
          (zeroPCCN.decoder.flat
            (zeroPCCN.globalFeature [[0, 0, 0]])).getD
              (3 * i + 2) 0]) :=
  ⟨c7_rowmajor_reshape.1 zeroSimple [[0, 0, 0]] zeroSimple_valid
      (by simp) (by simp),
    c7_rowmajor_reshape.2 zeroPCCN [[0, 0, 0]] zeroPCCN_valid
      (by simp) (by simp)⟩

/-- C8 counterexample: it is not the case that in the demonstration
configuration every affine layer of both network variants is initialized
with Xavier-uniform weights and zero biases — the SimplePCN built by
`create_model` keeps PyTorch's default Linear initialization
(Kaiming-uniform weights, fan-in-uniform biases), since the script never
applies `init_weights`. -/
theorem c8_xavier_counterexample :
    ¬ ∀ a ∈ simplePCNAffineInits ++ pccnAffineInits,
      a.weightInit = InitScheme.xavierUniform ∧
        a.biasInit = InitScheme.zeroInit := by
  decide

/-- C8 amended: the PointCloudCompletionNet variant (create_pcn_model.py)
does initialize every affine weight with Xavier-uniform and every bias
with zeros via `model.apply(init_weights)`, while the SimplePCN variant
(convert_pcn_to_coreml.py) keeps the PyTorch default initialization on
all six affine layers. -/
theorem c8_xavier_init_amended :
    pccnAffineInits = List.replicate 6
      { weightInit := InitScheme.xavierUniform,
        biasInit := InitScheme.zeroInit } ∧
    simplePCNAffineInits = List.replicate 6 torchAffineDefault :=
  ⟨rfl, rfl⟩

/-- C9: the normalization division is guarded by the stability constant
eps = 1e-5: with stored variance 0 the denominator sqrt(var + eps) is
strictly positive (hence nonzero — no division by zero), and the
normalization output is the well-defined value that multiplies back
against that nonzero denominator. -/
theorem c9_eps_guard (g bi mu y v : ℝ) (hv : v = 0) :
    0 < Real.sqrt (v + bnEps) ∧
      normScalar g bi mu v y * Real.sqrt (v + bnEps) =
        (y - mu) * g + bi * Real.sqrt (v + bnEps) := by
  subst hv
  have hpos : (0 : ℝ) < Real.sqrt (0 + bnEps) := by
    apply Real.sqrt_pos.mpr
    rw [zero_add]
    norm_num [bnEps]
  refine ⟨hpos, ?_⟩
  have hne : Real.sqrt (0 + bnEps) ≠ 0 := ne_of_gt hpos
  have hne2 : Real.sqrt bnEps ≠ 0 := by rwa [zero_add] at hne
  simp only [normScalar, normScalarE]
  field_simp

/-- C9 witness at concrete constants (scale 1, shift 0, mean 0, input 2,
variance 0). -/
theorem c9_eps_guard_witness :
    0 < Real.sqrt (0 + bnEps) ∧
      normScalar 1 0 0 0 2 * Real.sqrt (0 + bnEps) =
        (2 - 0) * 1 + 0 * Real.sqrt (0 + bnEps) :=
  c9_eps_guard 1 0 0 2 0 rfl
